import Mathlib

/-!
# Colorex: colour conversions, the cursor sampling loop and the window logic

A shallow embedding of `include/colorex.h`, `src/colorex.cpp` and the state logic of
`src/main.cpp`.

* `uint8_t` channels are natural numbers; `Color.valid` states the range `0..255` that the
  C++ type enforces.
* The conversions `Color::toHSL` and `Color::toCMYK` compute on `float`.  They are
  embedded over `ℚ` with an explicit rounding after every operation: `f32` for the
  binary32 arithmetic of the program, `id` for the reading in exact arithmetic.
* `std::round` followed by `static_cast<int>` is `roundHalfAway`.
* `std::format` with `{}` on an `int` is the decimal numeral (`toString` on `Int`), with
  `{:02x}` it is the lowercase hexadecimal numeral padded with zeros to two characters.
* Operating-system calls (`GetCursorPos`, `GetDC`, `GetPixel`, `CreateThread`,
  `OpenClipboard`, ...) are inputs: each function takes the outcome of the calls it makes.
-/

namespace Colorex

/-! ## Data model -/

/-- The `struct Color` of `colorex.h`: red, green and blue channel. -/
structure Color where
  r : Nat
  g : Nat
  b : Nat
deriving DecidableEq, Repr

/-- Range of the three `uint8_t` channels. -/
def Color.valid (c : Color) : Prop := c.r < 256 ∧ c.g < 256 ∧ c.b < 256

instance (c : Color) : Decidable c.valid := by
  unfold Color.valid
  infer_instance

/-- The Win32 `POINT`: two signed coordinates. -/
structure POINT where
  x : Int
  y : Int
deriving DecidableEq, Repr

/-! ## Formatting primitives -/

/-- The `std::format` field `{:02x}` on a non-negative `int`: lowercase base-16 digits,
padded on the left with `'0'` up to width two. -/
def fmtHex02 (n : Nat) : String :=
  let ds := Nat.toDigits 16 n
  String.mk (List.replicate (2 - ds.length) '0' ++ ds)

/-- The `std::format` field `{}` on an `int`. -/
def fmtInt (i : Int) : String := toString i

/-- The composition `static_cast<int>(std::round(x))`: nearest integer, halfway cases away
from zero. -/
def roundHalfAway (q : ℚ) : Int :=
  if 0 ≤ q then ⌊q + 1 / 2⌋ else ⌈q - 1 / 2⌉

/-! ## `Color` conversions (`colorex.cpp`, lines 15-92) -/

/-- `Color::toHex`. -/
def Color.toHex (c : Color) : String :=
  "#" ++ fmtHex02 c.r ++ fmtHex02 c.g ++ fmtHex02 c.b

/-- `Color::toRGB`. -/
def Color.toRGB (c : Color) : String :=
  "rgb(" ++ fmtInt c.r ++ ", " ++ fmtInt c.g ++ ", " ++ fmtInt c.b ++ ")"

/-! ### `float` arithmetic

`toHSL` and `toCMYK` compute on `float`.  Each `float` operation is the exact operation on
rationals followed by a rounding `fl` of the exact result; the conversions below take `fl`
as a parameter and follow the source operation for operation.  `fl := f32` is IEEE-754
binary32 with round-to-nearest-even, the arithmetic of the compiled program; `fl := id`
is the reading of the same code in exact rational arithmetic.  The constants `0.5f`,
`1.0f`, `2.0f`, `4.0f`, `6.0f`, `100.0f`, `255.0f`, `360.0f` are exact in binary32, the
literal `0.0001f` is not and is rounded like a result.  No value in these functions
exceeds 512 in magnitude, so exponent overflow is left out of `f32`. -/

/-- Nearest integer, halfway cases to the even neighbour. -/
def roundHalfEven (x : ℚ) : Int :=
  let f := ⌊x⌋
  let r := x - f
  if r < 1 / 2 then f
  else if 1 / 2 < r then f + 1
  else if f % 2 = 0 then f else f + 1

/-- Rounding of an exact result to IEEE-754 binary32 (24 significant bits, smallest
exponent -126 with gradual underflow below it), round-to-nearest-even. -/
def f32 (q : ℚ) : ℚ :=
  let e : Int := max (Int.log 2 |q|) (-126)
  let ulp : ℚ := 2 ^ (e - 23)
  roundHalfEven (q / ulp) * ulp

/-- The operand `n / 255.0f` for a channel value `n`: the locals `rf`, `gf`, `bf`. -/
def channelF (fl : ℚ → ℚ) (n : Nat) : ℚ := fl ((n : ℚ) / 255)

/-- The local `maxVal` of `toHSL`: `std::max({rf, gf, bf})`. -/
def Color.maxVal (fl : ℚ → ℚ) (c : Color) : ℚ :=
  max (channelF fl c.r) (max (channelF fl c.g) (channelF fl c.b))

/-- The local `minVal` of `toHSL`: `std::min({rf, gf, bf})`. -/
def Color.minVal (fl : ℚ → ℚ) (c : Color) : ℚ :=
  min (channelF fl c.r) (min (channelF fl c.g) (channelF fl c.b))

/-- The local `delta` of `toHSL`. -/
def Color.hslDelta (fl : ℚ → ℚ) (c : Color) : ℚ := fl (c.maxVal fl - c.minVal fl)

/-- The local `lightness` of `toHSL`. -/
def Color.hslLightness (fl : ℚ → ℚ) (c : Color) : ℚ :=
  fl (fl (c.maxVal fl + c.minVal fl) / 2)

/-- The local `saturation` of `toHSL` when the conversion reaches its rounding step. -/
def Color.hslSaturation (fl : ℚ → ℚ) (c : Color) : ℚ :=
  let maxVal := c.maxVal fl
  let minVal := c.minVal fl
  let delta := c.hslDelta fl
  let lightness := c.hslLightness fl
  if delta > fl (1 / 10000) then
    if lightness > 1 / 2 then fl (delta / fl (fl (2 - maxVal) - minVal))
    else fl (delta / fl (maxVal + minVal))
  else 0

/-- The local `hue` of `toHSL` (a fraction of the full turn) when the conversion reaches
its rounding step. -/
def Color.hslHue (fl : ℚ → ℚ) (c : Color) : ℚ :=
  let rf := channelF fl c.r
  let gf := channelF fl c.g
  let bf := channelF fl c.b
  let maxVal := c.maxVal fl
  let delta := c.hslDelta fl
  if delta > fl (1 / 10000) then
    let hue :=
      if maxVal = rf then fl (fl (fl (gf - bf) / delta) + (if gf < bf then 6 else 0))
      else if maxVal = gf then fl (fl (fl (bf - rf) / delta) + 2)
      else fl (fl (fl (rf - gf) / delta) + 4)
    fl (hue / 6)
  else 0

/-- The arguments of `std::round` in `toHSL`: `hue * 360.0f`, `saturation * 100.0f`,
`lightness * 100.0f`. -/
def Color.hslScaled (fl : ℚ → ℚ) (c : Color) : ℚ × ℚ × ℚ :=
  (fl (c.hslHue fl * 360), fl (c.hslSaturation fl * 100), fl (c.hslLightness fl * 100))

/-- The locals `hDeg`, `sPct`, `lPct` of `toHSL`. -/
def Color.hslInts (fl : ℚ → ℚ) (c : Color) : Int × Int × Int :=
  (roundHalfAway (c.hslScaled fl).1, roundHalfAway (c.hslScaled fl).2.1,
    roundHalfAway (c.hslScaled fl).2.2)

/-- The format string `"hsl({}, {}%, {}%)"`. -/
def fmtHSL (h s l : Int) : String :=
  "hsl(" ++ fmtInt h ++ ", " ++ fmtInt s ++ "%, " ++ fmtInt l ++ "%)"

/-- `Color::toHSL` under the rounding `fl`. -/
def Color.toHSLWith (fl : ℚ → ℚ) (c : Color) : String :=
  fmtHSL (c.hslInts fl).1 (c.hslInts fl).2.1 (c.hslInts fl).2.2

/-- `Color::toHSL`. -/
def Color.toHSL (c : Color) : String := c.toHSLWith f32

/-- The local `k` of `toCMYK`. -/
def Color.cmykKey (fl : ℚ → ℚ) (c : Color) : ℚ := fl (1 - c.maxVal fl)

/-- The lambda `calcComponent` of `toCMYK`, with its capture `k` as an argument. -/
def calcComponent (fl : ℚ → ℚ) (k value : ℚ) : ℚ :=
  if |fl (k - 1)| < fl (1 / 10000) then 0
  else fl (fl (fl (1 - value) - k) / fl (1 - k))

/-- The arguments of `std::round` in `toCMYK`: `c * 100.0f`, `m * 100.0f`, `y * 100.0f`,
`k * 100.0f`. -/
def Color.cmykScaled (fl : ℚ → ℚ) (c : Color) : ℚ × ℚ × ℚ × ℚ :=
  let k := c.cmykKey fl
  (fl (calcComponent fl k (channelF fl c.r) * 100),
    fl (calcComponent fl k (channelF fl c.g) * 100),
    fl (calcComponent fl k (channelF fl c.b) * 100),
    fl (k * 100))

/-- The locals `cPct`, `mPct`, `yPct`, `kPct` of `toCMYK`, computed after the test for
black. -/
def Color.cmykInts (fl : ℚ → ℚ) (c : Color) : Int × Int × Int × Int :=
  (roundHalfAway (c.cmykScaled fl).1, roundHalfAway (c.cmykScaled fl).2.1,
    roundHalfAway (c.cmykScaled fl).2.2.1, roundHalfAway (c.cmykScaled fl).2.2.2)

/-- The format string `"cmyk({}%, {}%, {}%, {}%)"`. -/
def fmtCMYK (c m y k : Int) : String :=
  "cmyk(" ++ fmtInt c ++ "%, " ++ fmtInt m ++ "%, " ++ fmtInt y ++ "%, " ++ fmtInt k ++ "%)"

/-- `Color::toCMYK` under the rounding `fl`. -/
def Color.toCMYKWith (fl : ℚ → ℚ) (c : Color) : String :=
  if c.r = 0 ∧ c.g = 0 ∧ c.b = 0 then "cmyk(0%, 0%, 0%, 100%)"
  else fmtCMYK (c.cmykInts fl).1 (c.cmykInts fl).2.1 (c.cmykInts fl).2.2.1
    (c.cmykInts fl).2.2.2

/-- `Color::toCMYK`. -/
def Color.toCMYK (c : Color) : String := c.toCMYKWith f32

/-- The lambda `calcComponent` with its division checked: `none` stands for a division by
zero. -/
def calcComponentChecked (fl : ℚ → ℚ) (k value : ℚ) : Option ℚ :=
  if |fl (k - 1)| < fl (1 / 10000) then some 0
  else if fl (1 - k) = 0 then none
  else some (fl (fl (fl (1 - value) - k) / fl (1 - k)))

/-- `Color::toCMYK` with the divisions of `calcComponent` checked: `none` stands for a
division by zero somewhere on the way. -/
def Color.toCMYKChecked (fl : ℚ → ℚ) (c : Color) : Option String :=
  if c.r = 0 ∧ c.g = 0 ∧ c.b = 0 then some "cmyk(0%, 0%, 0%, 100%)"
  else
    let k := c.cmykKey fl
    match calcComponentChecked fl k (channelF fl c.r), calcComponentChecked fl k (channelF fl c.g),
        calcComponentChecked fl k (channelF fl c.b) with
    | some cy, some m, some y =>
      some (fmtCMYK (roundHalfAway (fl (cy * 100))) (roundHalfAway (fl (m * 100)))
        (roundHalfAway (fl (y * 100))) (roundHalfAway (fl (k * 100))))
    | _, _, _ => none

/-- `Color::toCOLORREF`: the Win32 macro `RGB(r, g, b)`, which packs the low byte of each
argument as `0x00bbggrr`. -/
def Color.toCOLORREF (c : Color) : Nat :=
  c.r % 256 + (c.g % 256) * 256 + (c.b % 256) * 65536

/-- `Color::fromCOLORREF`: the Win32 macros `GetRValue`, `GetGValue`, `GetBValue` take the
low byte of the value, of its low word shifted right by 8, and of the value shifted right
by 16. -/
def Color.fromCOLORREF (colorRef : Nat) : Color :=
  ⟨colorRef % 256, colorRef % 65536 / 256 % 256, colorRef / 65536 % 256⟩

/-- The Win32 constant `CLR_INVALID`. -/
def CLR_INVALID : Nat := 0xFFFFFFFF

/-! ## `ColorPicker` (`colorex.cpp`, lines 94-189) -/

/-- The data members of `class ColorPicker`.  `m_callback` records whether the
`std::optional` holds a callback; what the callback is called with is logged by
`TrackingState.calls`.  `m_thread` is the thread handle, `none` for `nullptr`. -/
structure ColorPicker where
  m_running : Bool
  m_refreshRate : Int
  m_lastPosition : POINT
  m_currentColor : Color
  m_callback : Bool
  m_thread : Option Nat
deriving DecidableEq, Repr

/-- The constructor `ColorPicker::ColorPicker(int refreshRate)` with the member
initialisers of the class. -/
def ColorPicker.new (refreshRate : Int) : ColorPicker :=
  { m_running := false, m_refreshRate := refreshRate, m_lastPosition := ⟨0, 0⟩,
    m_currentColor := ⟨0, 0, 0⟩, m_callback := false, m_thread := none }

/-- `ColorPicker::start`; `created` is what `CreateThread` returns. -/
def ColorPicker.start (p : ColorPicker) (created : Option Nat) : ColorPicker :=
  if p.m_running then p
  else { p with m_running := true, m_thread := created }

/-- `ColorPicker::stop`. -/
def ColorPicker.stop (p : ColorPicker) : ColorPicker :=
  if !p.m_running then p
  else { p with m_running := false, m_thread := none }

/-- `ColorPicker::isRunning`. -/
def ColorPicker.isRunning (p : ColorPicker) : Bool := p.m_running

/-- `ColorPicker::onColorChange`. -/
def ColorPicker.onColorChange (p : ColorPicker) : ColorPicker :=
  { p with m_callback := true }

/-- `ColorPicker::getCurrentColor`. -/
def ColorPicker.getCurrentColor (p : ColorPicker) : Color := p.m_currentColor

/-- `ColorPicker::getPosition`. -/
def ColorPicker.getPosition (p : ColorPicker) : POINT := p.m_lastPosition

/-- What the operating system answers during one `captureColorAtCursor`: the cursor
position when `GetCursorPos` succeeds, whether `GetDC(nullptr)` returns a device context,
and the `COLORREF` returned by `GetPixel`. -/
structure PixelRead where
  cursor : Option POINT
  hdc : Bool
  pixel : Nat
deriving DecidableEq, Repr

/-- `ColorPicker::captureColorAtCursor`: the returned colour and the picker afterwards. -/
def ColorPicker.captureColorAtCursor (p : ColorPicker) (os : PixelRead) :
    Color × ColorPicker :=
  match os.cursor with
  | some cursorPos =>
    let p1 := { p with m_lastPosition := cursorPos }
    if os.hdc then
      if os.pixel ≠ CLR_INVALID then (Color.fromCOLORREF os.pixel, p1)
      else (p1.m_currentColor, p1)
    else (p1.m_currentColor, p1)
  | none => (p.m_currentColor, p)

/-- The state of `ColorPicker::trackingThread`: the picker it works on, its locals
`lastColor` and `lastPos`, and the log of the callback invocations made so far (oldest
first). -/
structure TrackingState where
  picker : ColorPicker
  lastColor : Color
  lastPos : POINT
  calls : List (Color × POINT)
deriving DecidableEq, Repr

/-- Entry of `trackingThread`: the initialisation of its locals. -/
def trackingEntry (p : ColorPicker) : TrackingState :=
  { picker := p, lastColor := ⟨0, 0, 0⟩, lastPos := ⟨-1, -1⟩, calls := [] }

/-- One execution of the body of the `while` loop of `trackingThread`. -/
def trackingIteration (s : TrackingState) (os : PixelRead) : TrackingState :=
  let captured := s.picker.captureColorAtCursor os
  let newColor := captured.1
  let newPos := captured.2.m_lastPosition
  let picker := { captured.2 with m_currentColor := newColor }
  if picker.m_callback = true ∧
      (newColor ≠ s.lastColor ∨ newPos.x ≠ s.lastPos.x ∨ newPos.y ≠ s.lastPos.y) then
    { picker := picker, lastColor := newColor, lastPos := newPos,
      calls := s.calls ++ [(newColor, newPos)] }
  else
    { s with picker := picker }

/-- What happens around the loop of `trackingThread`: the loop reaches its condition and
the operating system answers the next read, or another thread registers a callback
(`onColorChange`) or clears `m_running` (`stop`). -/
inductive ThreadInput where
  | poll (os : PixelRead)
  | registerCallback
  | stopRequest
deriving DecidableEq, Repr

/-- `ColorPicker::trackingThread` from the state `s` on: the loop runs its body while
`m_running` holds when the condition is evaluated and returns the first time it does
not. -/
def trackingThread (s : TrackingState) : List ThreadInput → TrackingState
  | [] => s
  | ThreadInput.poll os :: rest =>
    if s.picker.m_running then trackingThread (trackingIteration s os) rest else s
  | ThreadInput.registerCallback :: rest =>
    trackingThread { s with picker := s.picker.onColorChange } rest
  | ThreadInput.stopRequest :: rest =>
    trackingThread { s with picker := { s.picker with m_running := false } } rest

/-! ## `ColorexApp` (`main.cpp`) -/

/-- The Win32 `RECT`. -/
structure RECT where
  left : Int
  top : Int
  right : Int
  bottom : Int
deriving DecidableEq, Repr

/-- The `struct ClickableText` of `main.cpp`. -/
structure ClickableText where
  rect : RECT
  text : String
  label : String
deriving DecidableEq, Repr

/-- The Win32 `PtInRect`: a point on the left or top side is inside, one on the right or
bottom side is outside. -/
def PtInRect (rc : RECT) (pt : POINT) : Bool :=
  decide (rc.left ≤ pt.x ∧ pt.x < rc.right ∧ rc.top ≤ pt.y ∧ pt.y < rc.bottom)

/-- The state record of `class ColorexApp` that its logic reads and writes (window and
font handles are left out). -/
structure ColorexApp where
  m_picker : ColorPicker
  m_currentColor : Color
  m_cursorPos : POINT
  m_isActive : Bool
  m_isTopMost : Bool
  m_clickableAreas : List ClickableText
deriving DecidableEq, Repr

/-- A default-constructed `ColorexApp`: the member initialisers of the class. -/
def ColorexApp.new : ColorexApp :=
  { m_picker := ColorPicker.new 10, m_currentColor := ⟨0, 0, 0⟩, m_cursorPos := ⟨0, 0⟩,
    m_isActive := true, m_isTopMost := true, m_clickableAreas := [] }

/-- `ColorexApp::updateClickableAreas`. -/
def ColorexApp.updateClickableAreas (a : ColorexApp) : ColorexApp :=
  let x : Int := 80
  let width : Int := 100
  let height : Int := 20
  let ySpacing : Int := 30
  let areas0 : List ClickableText := []
  let rect0 : RECT := ⟨x, 80, x + width, 80 + height⟩
  let areas1 := areas0 ++ [⟨rect0, a.m_currentColor.toHex, "HEX: "⟩]
  let rect1 : RECT := { rect0 with top := rect0.top + ySpacing, bottom := rect0.bottom + ySpacing }
  let areas2 := areas1 ++ [⟨rect1, a.m_currentColor.toRGB, "RGB: "⟩]
  let rect2 : RECT := { rect1 with top := rect1.top + ySpacing, bottom := rect1.bottom + ySpacing }
  let areas3 := areas2 ++ [⟨rect2, a.m_currentColor.toHSL, "HSL: "⟩]
  let rect3 : RECT := { rect2 with top := rect2.top + ySpacing, bottom := rect2.bottom + ySpacing }
  let areas4 := areas3 ++ [⟨rect3, a.m_currentColor.toCMYK, "CMYK: "⟩]
  { a with m_clickableAreas := areas4 }

/-- The callback that `ColorexApp::initialize` registers with the picker. -/
def ColorexApp.colorChanged (a : ColorexApp) (color : Color) (pos : POINT) : ColorexApp :=
  ({ a with m_currentColor := color, m_cursorPos := pos }).updateClickableAreas

/-- What the operating system answers during one `copyToClipboard`: whether
`OpenClipboard`, `GlobalAlloc`, `GlobalLock` and `SetClipboardData` succeed. -/
structure ClipboardCalls where
  opened : Bool
  allocated : Bool
  locked : Bool
  stored : Bool
deriving DecidableEq, Repr

/-- `ColorexApp::copyToClipboard`: the text on the clipboard afterwards, given the text on
it before (`none` for an empty clipboard). -/
def copyToClipboard (os : ClipboardCalls) (clipboard : Option String) (text : String) :
    Option String :=
  if !os.opened then clipboard
  else if os.allocated then
    if os.locked then
      if os.stored then some text else none
    else none
  else none

/-- The `WM_LBUTTONDOWN` case of `ColorexApp::windowProc` at the client point
`(xPos, yPos)`: the application state and the clipboard text afterwards. -/
def ColorexApp.onLButtonDown (a : ColorexApp) (os : ClipboardCalls)
    (clipboard : Option String) (xPos yPos : Int) : ColorexApp × Option String :=
  if xPos ≥ 20 ∧ xPos ≤ 40 ∧ yPos ≥ 200 ∧ yPos ≤ 220 then
    ({ a with m_isTopMost := !a.m_isTopMost }, clipboard)
  else
    match a.m_clickableAreas.find? (fun area => PtInRect area.rect ⟨xPos, yPos⟩) with
    | some area => (a, copyToClipboard os clipboard area.text)
    | none => (a, clipboard)

/-- `ColorexApp::toggleColorPicker`; `created` is what `CreateThread` returns should the
picker start a thread. -/
def ColorexApp.toggleColorPicker (a : ColorexApp) (created : Option Nat) : ColorexApp :=
  let a1 := { a with m_isActive := !a.m_isActive }
  if a1.m_isActive then { a1 with m_picker := a1.m_picker.start created }
  else { a1 with m_picker := a1.m_picker.stop }

/-- What the operating system answers during `ColorexApp::initialize`: whether
`RegisterClass` and `CreateWindowEx` succeed, and what `CreateThread` returns. -/
structure StartupCalls where
  classRegistered : Bool
  windowCreated : Bool
  thread : Option Nat
deriving DecidableEq, Repr

/-- `ColorexApp::initialize`: its return value and the application state afterwards. -/
def ColorexApp.init (a : ColorexApp) (os : StartupCalls) : Bool × ColorexApp :=
  if !os.classRegistered then (false, a)
  else if !os.windowCreated then (false, a)
  else (true, { a with m_picker := a.m_picker.onColorChange.start os.thread })

/-! ## Reference notions used by the statements -/

/-- Value of a lowercase hexadecimal digit. -/
def hexVal (ch : Char) : Option Nat :=
  if '0' ≤ ch ∧ ch ≤ '9' then some (ch.toNat - '0'.toNat)
  else if 'a' ≤ ch ∧ ch ≤ 'f' then some (ch.toNat - 'a'.toNat + 10)
  else none

/-- Two hexadecimal digits read as a base-16 number. -/
def readHexPair (hi lo : Char) : Option Nat :=
  match hexVal hi, hexVal lo with
  | some h, some l => some (16 * h + l)
  | _, _ => none

/-- A string `#rrggbb` read back as a channel triple. -/
def readHex (s : String) : Option Color :=
  match s.data with
  | ['#', r1, r0, g1, g0, b1, b0] =>
    match readHexPair r1 r0, readHexPair g1 g0, readHexPair b1 b0 with
    | some r, some g, some b => some ⟨r, g, b⟩
    | _, _, _ => none
  | _ => none

/-- The lowercase hexadecimal digit characters. -/
def isLowerHexDigit (ch : Char) : Bool :=
  decide (('0' ≤ ch ∧ ch ≤ '9') ∨ ('a' ≤ ch ∧ ch ≤ 'f'))

/-- The largest channel, `max(r, g, b)`. -/
def Color.maxChannel (c : Color) : Nat := max c.r (max c.g c.b)

/-- The smallest channel, `min(r, g, b)`. -/
def Color.minChannel (c : Color) : Nat := min c.r (min c.g c.b)

/-- Reference RGB-to-CMYK formula, cyan in percent: `100 * (M - r) / M`. -/
def refCyan (c : Color) : ℚ := 100 * ((c.maxChannel : ℚ) - c.r) / c.maxChannel

/-- Reference RGB-to-CMYK formula, magenta in percent: `100 * (M - g) / M`. -/
def refMagenta (c : Color) : ℚ := 100 * ((c.maxChannel : ℚ) - c.g) / c.maxChannel

/-- Reference RGB-to-CMYK formula, yellow in percent: `100 * (M - b) / M`. -/
def refYellow (c : Color) : ℚ := 100 * ((c.maxChannel : ℚ) - c.b) / c.maxChannel

/-- Reference RGB-to-CMYK formula, key in percent: `100 * (255 - M) / 255`. -/
def refKey (c : Color) : ℚ := 100 * (255 - (c.maxChannel : ℚ)) / 255

/-- Real remainder modulo 6, with values in `[0, 6)`. -/
def mod6 (x : ℚ) : ℚ := x - 6 * ⌊x / 6⌋

/-- Reference RGB-to-HSL formula, lightness: `L = (max + min) / 2` on channels divided by
255. -/
def refLightness (c : Color) : ℚ :=
  ((c.maxChannel : ℚ) / 255 + (c.minChannel : ℚ) / 255) / 2

/-- Reference RGB-to-HSL formula, saturation: `0` when `r = g = b`, otherwise
`delta / (1 - |2L - 1|)`. -/
def refSaturation (c : Color) : ℚ :=
  if c.r = c.g ∧ c.g = c.b then 0
  else ((c.maxChannel : ℚ) / 255 - (c.minChannel : ℚ) / 255) / (1 - |2 * refLightness c - 1|)

/-- Reference RGB-to-HSL formula, hue in degrees when red is taken as the maximum. -/
def refHueRed (c : Color) : ℚ :=
  60 * mod6 (((c.g : ℚ) / 255 - (c.b : ℚ) / 255) /
    ((c.maxChannel : ℚ) / 255 - (c.minChannel : ℚ) / 255))

/-- Reference RGB-to-HSL formula, hue in degrees when green is taken as the maximum. -/
def refHueGreen (c : Color) : ℚ :=
  60 * (((c.b : ℚ) / 255 - (c.r : ℚ) / 255) /
    ((c.maxChannel : ℚ) / 255 - (c.minChannel : ℚ) / 255) + 2)

/-- Reference RGB-to-HSL formula, hue in degrees when blue is taken as the maximum. -/
def refHueBlue (c : Color) : ℚ :=
  60 * (((c.r : ℚ) / 255 - (c.g : ℚ) / 255) /
    ((c.maxChannel : ℚ) / 255 - (c.minChannel : ℚ) / 255) + 4)

/-- Reference RGB-to-HSL formula, hue in degrees: `0` when `r = g = b`, otherwise the
formula of a channel that is the maximum (they agree when several are). -/
def refHue (c : Color) : ℚ :=
  if c.r = c.g ∧ c.g = c.b then 0
  else if c.r = c.maxChannel then refHueRed c
  else if c.g = c.maxChannel then refHueGreen c
  else refHueBlue c

/-- A rounding `fl` is at least as accurate as binary32 on the range these conversions work
in: it keeps zero, is within `2 ^ -23` (bounded here by `1/8000000`) of a value up to 2
in magnitude and within `2 ^ -15` (bounded by `1/32000`) of a value up to 512. -/
def Accurate (fl : ℚ → ℚ) : Prop :=
  fl 0 = 0 ∧ (∀ q : ℚ, |q| ≤ 2 → |fl q - q| ≤ 1 / 8000000) ∧
    (∀ q : ℚ, |q| ≤ 512 → |fl q - q| ≤ 1 / 32000)

/-- The pixel read of one `captureColorAtCursor` fails: the cursor-position query fails,
no screen device context is obtained, or the pixel query returns `CLR_INVALID`. -/
def readFails (os : PixelRead) : Prop :=
  os.cursor = none ∨ os.hdc = false ∨ os.pixel = CLR_INVALID

/-- The colour and cursor position that an iteration of the polling loop samples. -/
def sampled (s : TrackingState) (os : PixelRead) : Color × POINT :=
  ((s.picker.captureColorAtCursor os).1, (s.picker.captureColorAtCursor os).2.m_lastPosition)

/-- The last observed colour and position: the pair passed to the latest invocation of the
callback, or black at `(-1, -1)` before any invocation. -/
def lastObserved (s : TrackingState) : Color × POINT :=
  s.calls.getLast?.getD (⟨0, 0, 0⟩, ⟨-1, -1⟩)

/-- The locals `lastColor`, `lastPos` of the polling loop hold the last observed pair. -/
def TrackingState.inSync (s : TrackingState) : Prop :=
  (s.lastColor, s.lastPos) = lastObserved s

/-- The region tested first by the `WM_LBUTTONDOWN` handler: the always-on-top checkbox. -/
def inCheckbox (xPos yPos : Int) : Prop :=
  20 ≤ xPos ∧ xPos ≤ 40 ∧ 200 ≤ yPos ∧ yPos ≤ 220

/-! ## Theorems -/

/-! ### Hexadecimal output -/

set_option maxRecDepth 100000 in
/-- The field `{:02x}` on a channel value: two lowercase hexadecimal digits that read back
as the value. -/
theorem fmtHex02_spec : ∀ n < 256, ∃ hi lo, (fmtHex02 n).data = [hi, lo] ∧
    isLowerHexDigit hi = true ∧ isLowerHexDigit lo = true ∧ readHexPair hi lo = some n := by
  intro n hn
  refine ⟨Nat.digitChar (n / 16), Nat.digitChar (n % 16), ?_⟩
  revert n
  decide

theorem toHex_data (c : Color) :
    c.toHex.data = '#' :: ((fmtHex02 c.r).data ++ (fmtHex02 c.g).data ++ (fmtHex02 c.b).data) := by
  simp [Color.toHex, String.data_append]

theorem readHex_toHex (c : Color) (h : c.valid) : readHex c.toHex = some c := by
  obtain ⟨hr, hg, hb⟩ := h
  obtain ⟨r1, r0, er, -, -, vr⟩ := fmtHex02_spec c.r hr
  obtain ⟨g1, g0, eg, -, -, vg⟩ := fmtHex02_spec c.g hg
  obtain ⟨b1, b0, eb, -, -, vb⟩ := fmtHex02_spec c.b hb
  have hd : c.toHex.data = ['#', r1, r0, g1, g0, b1, b0] := by
    rw [toHex_data, er, eg, eb]; rfl
  unfold readHex
  rw [hd]
  simp only [vr, vg, vb]

/-- C1. For every colour with channels in `0..255`, `toHex` is seven characters long, a
`'#'` followed by six lowercase hexadecimal digits; reading the three digit pairs back in
base 16 gives the colour again; hence two such colours with the same `toHex` are equal. -/
theorem toHex_roundtrip (c : Color) (h : c.valid) :
    c.toHex.length = 7 ∧
    (∃ ds : List Char, c.toHex.data = '#' :: ds ∧ ds.length = 6 ∧
      ∀ ch ∈ ds, isLowerHexDigit ch = true) ∧
    readHex c.toHex = some c ∧
    ∀ c' : Color, c'.valid → c'.toHex = c.toHex → c' = c := by
  have hc := h
  obtain ⟨hr, hg, hb⟩ := h
  obtain ⟨r1, r0, er, lr1, lr0, -⟩ := fmtHex02_spec c.r hr
  obtain ⟨g1, g0, eg, lg1, lg0, -⟩ := fmtHex02_spec c.g hg
  obtain ⟨b1, b0, eb, lb1, lb0, -⟩ := fmtHex02_spec c.b hb
  have hd : c.toHex.data = ['#', r1, r0, g1, g0, b1, b0] := by
    rw [toHex_data, er, eg, eb]; rfl
  refine ⟨?_, ⟨[r1, r0, g1, g0, b1, b0], hd, rfl, ?_⟩, readHex_toHex c hc, ?_⟩
  · show c.toHex.data.length = 7
    rw [hd]; rfl
  · intro ch hch
    simp only [List.mem_cons, List.mem_singleton, List.not_mem_nil, or_false] at hch
    rcases hch with rfl | rfl | rfl | rfl | rfl | rfl <;> assumption
  · intro c' hc' heq
    have h1 := readHex_toHex c' hc'
    rw [heq, readHex_toHex c hc] at h1
    exact (Option.some.inj h1).symm

/-- C1 at the colour `(18, 52, 86)`. -/
theorem toHex_roundtrip_witness :
    (Color.mk 18 52 86).toHex.length = 7 ∧
    (∃ ds : List Char, (Color.mk 18 52 86).toHex.data = '#' :: ds ∧ ds.length = 6 ∧
      ∀ ch ∈ ds, isLowerHexDigit ch = true) ∧
    readHex (Color.mk 18 52 86).toHex = some (Color.mk 18 52 86) ∧
    ∀ c' : Color, c'.valid → c'.toHex = (Color.mk 18 52 86).toHex → c' = Color.mk 18 52 86 :=
  toHex_roundtrip (Color.mk 18 52 86) (by decide)

/-! ### Black in CMYK -/

/-- C2. `toCMYK` of black is the literal `"cmyk(0%, 0%, 0%, 100%)"`, in binary32 and in
exact arithmetic alike; the literal is the format with cyan, magenta and yellow at 0 and
key at 100. -/
theorem toCMYK_black :
    (Color.mk 0 0 0).toCMYK = "cmyk(0%, 0%, 0%, 100%)" ∧
    (Color.mk 0 0 0).toCMYKWith id = "cmyk(0%, 0%, 0%, 100%)" ∧
    fmtCMYK 0 0 0 100 = "cmyk(0%, 0%, 0%, 100%)" :=
  ⟨rfl, rfl, by decide⟩

/-! ### Pixel capture -/

/-- C5. `captureColorAtCursor` leaves the stored `m_currentColor` untouched; it returns
that stored colour whenever the read fails and the colour decoded from the pixel value
otherwise; so after an iteration of the polling loop whose read failed,
`getCurrentColor()` is what it was before the iteration. -/
theorem captureColorAtCursor_fallback (s : TrackingState) (os : PixelRead) :
    (s.picker.captureColorAtCursor os).2.m_currentColor = s.picker.m_currentColor ∧
    (readFails os → (s.picker.captureColorAtCursor os).1 = s.picker.m_currentColor) ∧
    (¬ readFails os → (s.picker.captureColorAtCursor os).1 = Color.fromCOLORREF os.pixel) ∧
    (readFails os →
      (trackingIteration s os).picker.getCurrentColor = s.picker.getCurrentColor) := by
  obtain ⟨cursor, hdc, pixel⟩ := os
  have key : readFails ⟨cursor, hdc, pixel⟩ →
      (s.picker.captureColorAtCursor ⟨cursor, hdc, pixel⟩).1 = s.picker.m_currentColor := by
    intro hf
    cases cursor with
    | none => rfl
    | some pos =>
      cases hdc with
      | false => rfl
      | true =>
        have hp : pixel = CLR_INVALID := by
          rcases hf with h | h | h
          · cases h
          · cases h
          · exact h
        simp [ColorPicker.captureColorAtCursor, hp]
  refine ⟨?_, key, ?_, ?_⟩
  · cases cursor with
    | none => rfl
    | some pos =>
      simp only [ColorPicker.captureColorAtCursor]
      split_ifs <;> rfl
  · intro hn
    cases cursor with
    | none => exact absurd (Or.inl rfl) hn
    | some pos =>
      cases hdc with
      | false => exact absurd (Or.inr (Or.inl rfl)) hn
      | true =>
        have hp : pixel ≠ CLR_INVALID := fun h => hn (Or.inr (Or.inr h))
        simp [ColorPicker.captureColorAtCursor, hp]
  · intro hf
    have h1 := key hf
    simp only [trackingIteration, ColorPicker.getCurrentColor]
    split_ifs <;> exact h1

/-- C5 at a read whose pixel query returns `CLR_INVALID`, with `(18, 52, 86)` stored. -/
theorem captureColorAtCursor_fallback_witness :
    readFails ⟨some ⟨5, 7⟩, true, CLR_INVALID⟩ ∧
    ((trackingEntry { ColorPicker.new 10 with m_currentColor := ⟨18, 52, 86⟩ }).picker.captureColorAtCursor
        ⟨some ⟨5, 7⟩, true, CLR_INVALID⟩).1 = ⟨18, 52, 86⟩ ∧
    (trackingIteration (trackingEntry { ColorPicker.new 10 with m_currentColor := ⟨18, 52, 86⟩ })
        ⟨some ⟨5, 7⟩, true, CLR_INVALID⟩).picker.getCurrentColor = ⟨18, 52, 86⟩ :=
  have h := captureColorAtCursor_fallback
    (trackingEntry { ColorPicker.new 10 with m_currentColor := ⟨18, 52, 86⟩ })
    ⟨some ⟨5, 7⟩, true, CLR_INVALID⟩
  ⟨Or.inr (Or.inr rfl), h.2.1 (Or.inr (Or.inr rfl)), h.2.2.2 (Or.inr (Or.inr rfl))⟩

/-! ### Polling loop -/

theorem capture_keeps_callback (p : ColorPicker) (os : PixelRead) :
    (p.captureColorAtCursor os).2.m_callback = p.m_callback := by
  obtain ⟨cursor, hdc, pixel⟩ := os
  cases cursor with
  | none => rfl
  | some pos =>
    simp only [ColorPicker.captureColorAtCursor]
    split_ifs <;> rfl

theorem point_ne_iff (a b : POINT) : (a.x ≠ b.x ∨ a.y ≠ b.y) ↔ a ≠ b := by
  obtain ⟨ax, ay⟩ := a
  obtain ⟨bx, b_y⟩ := b
  simp only [ne_eq, POINT.mk.injEq]
  tauto

/-- The guard of the `if` in the loop body, in terms of the sampled pair. -/
theorem trackingIteration_calls (s : TrackingState) (os : PixelRead) :
    trackingIteration s os =
      if s.picker.m_callback = true ∧ sampled s os ≠ (s.lastColor, s.lastPos) then
        { picker := { (s.picker.captureColorAtCursor os).2 with m_currentColor := (sampled s os).1 },
          lastColor := (sampled s os).1, lastPos := (sampled s os).2,
          calls := s.calls ++ [sampled s os] }
      else
        { s with picker :=
            { (s.picker.captureColorAtCursor os).2 with m_currentColor := (sampled s os).1 } } := by
  have hg : (s.picker.m_callback = true ∧ sampled s os ≠ (s.lastColor, s.lastPos)) ↔
      (({ (s.picker.captureColorAtCursor os).2 with
            m_currentColor := (s.picker.captureColorAtCursor os).1 } : ColorPicker).m_callback = true ∧
        ((s.picker.captureColorAtCursor os).1 ≠ s.lastColor ∨
          (s.picker.captureColorAtCursor os).2.m_lastPosition.x ≠ s.lastPos.x ∨
          (s.picker.captureColorAtCursor os).2.m_lastPosition.y ≠ s.lastPos.y)) := by
    simp only [capture_keeps_callback, sampled, ne_eq, Prod.mk.injEq, not_and_or]
    rw [← ne_eq, ← ne_eq (s.picker.captureColorAtCursor os).2.m_lastPosition, ← point_ne_iff]
  unfold trackingIteration
  by_cases h : s.picker.m_callback = true ∧ sampled s os ≠ (s.lastColor, s.lastPos)
  · rw [if_pos h, if_pos (hg.mp h)]; rfl
  · rw [if_neg h, if_neg (fun h' => h (hg.mpr h'))]; rfl

theorem trackingIteration_inSync (s : TrackingState) (os : PixelRead) (h : s.inSync) :
    (trackingIteration s os).inSync := by
  rw [trackingIteration_calls]
  split_ifs with hc
  · simp [TrackingState.inSync, lastObserved]
  · exact h

theorem trackingThread_inSync (inputs : List ThreadInput) :
    ∀ s : TrackingState, s.inSync → (trackingThread s inputs).inSync := by
  induction inputs with
  | nil => intro s h; exact h
  | cons i rest ih =>
    intro s h
    cases i with
    | poll os =>
      simp only [trackingThread]
      split_ifs
      · exact ih _ (trackingIteration_inSync s os h)
      · exact h
    | registerCallback => exact ih _ h
    | stopRequest => exact ih _ h

theorem trackingThread_append (xs ys : List ThreadInput) :
    ∀ s : TrackingState, (trackingThread s xs).picker.m_running = true →
      trackingThread s (xs ++ ys) = trackingThread (trackingThread s xs) ys := by
  induction xs with
  | nil => intro s _; rfl
  | cons i rest ih =>
    intro s h
    cases i with
    | poll os =>
      simp only [trackingThread, List.cons_append] at h ⊢
      split_ifs with hr
      · rw [if_pos hr] at h
        exact ih _ h
      · rw [if_neg hr] at h
        exact absurd h hr
    | registerCallback => exact ih _ h
    | stopRequest => exact ih _ h

/-- C6. Take the thread from its entry through any inputs to a state `s` in which the loop
is still running, and let it run one more iteration.  The locals `lastColor`, `lastPos`
are then the last observed pair; with a callback registered the iteration logs one
invocation, with the sampled colour and position, exactly when the sampled pair differs
from the last observed one, and logs nothing when they are equal; without a callback it
logs nothing; in every case it logs at most that one invocation. -/
theorem trackingThread_callback (p : ColorPicker) (inputs : List ThreadInput) (os : PixelRead)
    (hrun : (trackingThread (trackingEntry p) inputs).picker.m_running = true) :
    trackingThread (trackingEntry p) (inputs ++ [ThreadInput.poll os]) =
      trackingIteration (trackingThread (trackingEntry p) inputs) os ∧
    ((trackingThread (trackingEntry p) inputs).lastColor,
      (trackingThread (trackingEntry p) inputs).lastPos) =
      lastObserved (trackingThread (trackingEntry p) inputs) ∧
    ((trackingThread (trackingEntry p) inputs).picker.m_callback = true →
      ((trackingIteration (trackingThread (trackingEntry p) inputs) os).calls =
          (trackingThread (trackingEntry p) inputs).calls ++
            [sampled (trackingThread (trackingEntry p) inputs) os] ↔
        sampled (trackingThread (trackingEntry p) inputs) os ≠
          lastObserved (trackingThread (trackingEntry p) inputs)) ∧
      (sampled (trackingThread (trackingEntry p) inputs) os =
          lastObserved (trackingThread (trackingEntry p) inputs) →
        (trackingIteration (trackingThread (trackingEntry p) inputs) os).calls =
          (trackingThread (trackingEntry p) inputs).calls)) ∧
    ((trackingThread (trackingEntry p) inputs).picker.m_callback = false →
      (trackingIteration (trackingThread (trackingEntry p) inputs) os).calls =
        (trackingThread (trackingEntry p) inputs).calls) ∧
    ((trackingIteration (trackingThread (trackingEntry p) inputs) os).calls =
        (trackingThread (trackingEntry p) inputs).calls ∨
      (trackingIteration (trackingThread (trackingEntry p) inputs) os).calls =
        (trackingThread (trackingEntry p) inputs).calls ++
          [sampled (trackingThread (trackingEntry p) inputs) os]) := by
  have hsync : (trackingThread (trackingEntry p) inputs).inSync :=
    trackingThread_inSync inputs (trackingEntry p) rfl
  have happ := trackingThread_append inputs [ThreadInput.poll os] (trackingEntry p) hrun
  refine ⟨?_, hsync, ?_⟩
  · rw [happ]
    simp only [trackingThread]
    rw [if_pos hrun]
  clear happ
  generalize trackingThread (trackingEntry p) inputs = s at hrun hsync ⊢
  have hlast : (s.lastColor, s.lastPos) = lastObserved s := hsync
  have hne : s.calls ++ [sampled s os] ≠ s.calls := by
    intro h
    have := congrArg List.length h
    simp at this
  rw [trackingIteration_calls, hlast]
  refine ⟨?_, ?_, ?_⟩
  · intro hcb
    constructor
    · constructor
      · intro h
        intro hc
        rw [if_neg (fun h' => h'.2 hc)] at h
        exact hne h.symm
      · intro h
        rw [if_pos ⟨hcb, h⟩]
    · intro h
      rw [if_neg (fun h' => h'.2 h)]
  · intro hcb
    rw [if_neg (fun h' => by rw [hcb] at h'; exact Bool.false_ne_true h'.1)]
  · split_ifs
    · exact Or.inr rfl
    · exact Or.inl rfl

/-- C6 on a started picker with a callback: the first iteration reads `(18, 52, 86)` at
`(5, 7)`, which differs from black at `(-1, -1)`, and logs exactly that invocation. -/
theorem trackingThread_callback_witness :
    (trackingThread (trackingEntry ((ColorPicker.new 10).onColorChange.start (some 1))) []).picker.m_running
      = true ∧
    (trackingThread (trackingEntry ((ColorPicker.new 10).onColorChange.start (some 1)))
        ([] ++ [ThreadInput.poll ⟨some ⟨5, 7⟩, true, 0x563412⟩])).calls = [(⟨18, 52, 86⟩, ⟨5, 7⟩)] :=
  have h := trackingThread_callback ((ColorPicker.new 10).onColorChange.start (some 1)) []
    ⟨some ⟨5, 7⟩, true, 0x563412⟩ rfl
  ⟨rfl, by rw [h.1]; exact (h.2.2.1 rfl).1.mpr (by decide)⟩

/-! ### Clickable areas -/

theorem updateClickableAreas_areas (a : ColorexApp) :
    a.updateClickableAreas.m_clickableAreas =
      [⟨⟨80, 80, 180, 100⟩, a.m_currentColor.toHex, "HEX: "⟩,
       ⟨⟨80, 110, 180, 130⟩, a.m_currentColor.toRGB, "RGB: "⟩,
       ⟨⟨80, 140, 180, 160⟩, a.m_currentColor.toHSL, "HSL: "⟩,
       ⟨⟨80, 170, 180, 190⟩, a.m_currentColor.toCMYK, "CMYK: "⟩] := by
  rfl

theorem PtInRect_iff (rc : RECT) (pt : POINT) :
    PtInRect rc pt = true ↔
      rc.left ≤ pt.x ∧ pt.x < rc.right ∧ rc.top ≤ pt.y ∧ pt.y < rc.bottom := by
  simp [PtInRect]

/-- C8. After `updateClickableAreas` the list holds the four entries HEX, RGB, HSL, CMYK
in this order, with the four representations of the stored colour (which the update does
not change) and the rectangles `[80,180) x [80,100)`, `[110,130)`, `[140,160)`,
`[170,190)`.  The rectangles are pairwise disjoint and miss the checkbox region, so a
left click is inside at most one entry; a click inside an entry hands that entry's text
to `copyToClipboard`, which puts it on the clipboard when the clipboard calls succeed, and
a click inside no entry leaves the clipboard as it was. -/
theorem updateClickableAreas_click (a : ColorexApp) :
    a.updateClickableAreas.m_clickableAreas =
      [⟨⟨80, 80, 180, 100⟩, a.m_currentColor.toHex, "HEX: "⟩,
       ⟨⟨80, 110, 180, 130⟩, a.m_currentColor.toRGB, "RGB: "⟩,
       ⟨⟨80, 140, 180, 160⟩, a.m_currentColor.toHSL, "HSL: "⟩,
       ⟨⟨80, 170, 180, 190⟩, a.m_currentColor.toCMYK, "CMYK: "⟩] ∧
    a.updateClickableAreas.m_currentColor = a.m_currentColor ∧
    (∀ (i : Nat) (area : ClickableText) (pt : POINT),
      a.updateClickableAreas.m_clickableAreas.get? i = some area →
      (PtInRect area.rect pt = true ↔
        80 ≤ pt.x ∧ pt.x < 180 ∧ 80 + 30 * (i : Int) ≤ pt.y ∧ pt.y < 100 + 30 * (i : Int))) ∧
    a.updateClickableAreas.m_clickableAreas.Pairwise
      (fun p q => ∀ pt : POINT, ¬ (PtInRect p.rect pt = true ∧ PtInRect q.rect pt = true)) ∧
    (∀ xPos yPos : Int, inCheckbox xPos yPos →
      ∀ area ∈ a.updateClickableAreas.m_clickableAreas,
        PtInRect area.rect ⟨xPos, yPos⟩ = false) ∧
    (∀ (os : ClipboardCalls) (clipboard : Option String) (xPos yPos : Int),
      ∀ area ∈ a.updateClickableAreas.m_clickableAreas,
        PtInRect area.rect ⟨xPos, yPos⟩ = true →
        a.updateClickableAreas.onLButtonDown os clipboard xPos yPos =
          (a.updateClickableAreas, copyToClipboard os clipboard area.text)) ∧
    (∀ (clipboard : Option String) (text : String),
      copyToClipboard ⟨true, true, true, true⟩ clipboard text = some text) ∧
    (∀ (os : ClipboardCalls) (clipboard : Option String) (xPos yPos : Int),
      (∀ area ∈ a.updateClickableAreas.m_clickableAreas,
        PtInRect area.rect ⟨xPos, yPos⟩ = false) →
      (a.updateClickableAreas.onLButtonDown os clipboard xPos yPos).2 = clipboard) := by
  refine ⟨updateClickableAreas_areas a, rfl, ?_, ?_, ?_, ?_, ?_, ?_⟩
  · intro i area pt hget
    rw [updateClickableAreas_areas] at hget
    rw [PtInRect_iff]
    match i, hget with
    | 0, hget => cases hget; simp
    | 1, hget => cases hget; simp
    | 2, hget => cases hget; simp
    | 3, hget => cases hget; simp
    | (n + 4), hget => simp at hget
  · rw [updateClickableAreas_areas]
    simp only [List.pairwise_cons, List.mem_cons, List.mem_singleton, List.not_mem_nil,
      PtInRect_iff, forall_eq_or_imp, forall_eq]
    refine ⟨⟨?_, ?_, ?_, ?_⟩, ⟨?_, ?_, ?_⟩, ⟨?_, ?_⟩, ?_, List.Pairwise.nil⟩ <;>
      first
        | (intro pt h; omega)
        | (intro x hx; exact absurd hx (by simp))
  · intro xPos yPos hbox area harea
    rw [updateClickableAreas_areas] at harea
    rw [Bool.eq_false_iff]
    intro hin
    rw [PtInRect_iff] at hin
    unfold inCheckbox at hbox
    simp only [List.mem_cons, List.mem_singleton, List.not_mem_nil, or_false] at harea
    rcases harea with rfl | rfl | rfl | rfl <;> simp only at hin <;> omega
  · intro os clipboard xPos yPos area harea hin
    have hareas := updateClickableAreas_areas a
    rw [hareas] at harea
    have hin' := (PtInRect_iff _ _).mp hin
    have hbox : ¬ (xPos ≥ 20 ∧ xPos ≤ 40 ∧ yPos ≥ 200 ∧ yPos ≤ 220) := by
      simp only [List.mem_cons, List.mem_singleton, List.not_mem_nil, or_false] at harea
      rcases harea with rfl | rfl | rfl | rfl <;> simp only at hin' <;> omega
    unfold ColorexApp.onLButtonDown
    rw [if_neg hbox, hareas]
    have miss : ∀ rc : RECT, rc.left = 80 → rc.right = 180 →
        (yPos < rc.top ∨ rc.bottom ≤ yPos) → PtInRect rc ⟨xPos, yPos⟩ = false := by
      intro rc _ _ h
      rw [Bool.eq_false_iff]
      intro hc
      have := (PtInRect_iff _ _).mp hc
      simp only at this
      omega
    simp only [List.mem_cons, List.mem_singleton, List.not_mem_nil, or_false] at harea
    rcases harea with rfl | rfl | rfl | rfl
    · simp only [List.find?, hin]
    · simp only at hin'
      simp only [List.find?, hin, miss ⟨80, 80, 180, 100⟩ rfl rfl (Or.inr (by simp only; omega))]
    · simp only at hin'
      simp only [List.find?, hin, miss ⟨80, 80, 180, 100⟩ rfl rfl (Or.inr (by simp only; omega)),
        miss ⟨80, 110, 180, 130⟩ rfl rfl (Or.inr (by simp only; omega))]
    · simp only at hin'
      simp only [List.find?, hin, miss ⟨80, 80, 180, 100⟩ rfl rfl (Or.inr (by simp only; omega)),
        miss ⟨80, 110, 180, 130⟩ rfl rfl (Or.inr (by simp only; omega)),
        miss ⟨80, 140, 180, 160⟩ rfl rfl (Or.inr (by simp only; omega))]
  · intro clipboard text; rfl
  · intro os clipboard xPos yPos hnone
    unfold ColorexApp.onLButtonDown
    split_ifs
    · rfl
    · have hfind : a.updateClickableAreas.m_clickableAreas.find?
          (fun area => PtInRect area.rect ⟨xPos, yPos⟩) = none := by
        rw [List.find?_eq_none]
        intro area harea
        rw [hnone area harea]
        exact Bool.false_ne_true
      rw [hfind]

/-- C8 on the colour `(18, 52, 86)`: a click at `(100, 115)` is inside the RGB entry and
copies `toRGB()` of that colour. -/
theorem updateClickableAreas_click_witness :
    PtInRect ⟨80, 110, 180, 130⟩ ⟨100, 115⟩ = true ∧
    ((ColorexApp.new.colorChanged ⟨18, 52, 86⟩ ⟨3, 4⟩).updateClickableAreas.onLButtonDown
        ⟨true, true, true, true⟩ none 100 115).2 = some (Color.mk 18 52 86).toRGB :=
  have h := updateClickableAreas_click (ColorexApp.new.colorChanged ⟨18, 52, 86⟩ ⟨3, 4⟩)
  ⟨by decide, by
    rw [h.2.2.2.2.2.1 ⟨true, true, true, true⟩ none 100 115
      ⟨⟨80, 110, 180, 130⟩, (Color.mk 18 52 86).toRGB, "RGB: "⟩
      (by rw [h.1]; exact List.mem_cons_of_mem _ (List.mem_cons_self _ _)) (by decide)]
    rfl⟩

/-! ### Active flag and sampler -/

theorem toggleColorPicker_flags (a : ColorexApp) (created : Option Nat) :
    (a.toggleColorPicker created).m_isActive = !a.m_isActive ∧
    (a.toggleColorPicker created).m_picker.isRunning = !a.m_isActive := by
  cases hact : a.m_isActive <;> cases hrun : a.m_picker.m_running <;>
    simp [ColorexApp.toggleColorPicker, ColorPicker.start, ColorPicker.stop,
      ColorPicker.isRunning, hact, hrun]

theorem toggleColorPicker_foldl (toggles : List (Option Nat)) :
    ∀ a : ColorexApp, a.m_picker.isRunning = a.m_isActive →
      (toggles.foldl ColorexApp.toggleColorPicker a).m_picker.isRunning =
        (toggles.foldl ColorexApp.toggleColorPicker a).m_isActive := by
  induction toggles with
  | nil => intro a h; exact h
  | cons t rest ih =>
    intro a _
    rw [List.foldl_cons]
    apply ih
    rw [(toggleColorPicker_flags a t).1, (toggleColorPicker_flags a t).2]

/-- C10. When `initialize` succeeds on a fresh application, `m_isActive` is true and the
picker runs; after any sequence of `toggleColorPicker` calls from there `isRunning()`
equals `m_isActive`, and two further toggles restore both flags.  `start` on a running
picker and `stop` on a stopped picker change nothing. -/
theorem toggleColorPicker_agrees (os : StartupCalls) (toggles : List (Option Nat))
    (hinit : (ColorexApp.new.init os).1 = true) :
    (ColorexApp.new.init os).2.m_isActive = true ∧
    (ColorexApp.new.init os).2.m_picker.isRunning = true ∧
    (toggles.foldl ColorexApp.toggleColorPicker (ColorexApp.new.init os).2).m_picker.isRunning =
      (toggles.foldl ColorexApp.toggleColorPicker (ColorexApp.new.init os).2).m_isActive ∧
    (∀ t1 t2 : Option Nat,
      (((toggles.foldl ColorexApp.toggleColorPicker (ColorexApp.new.init os).2).toggleColorPicker
          t1).toggleColorPicker t2).m_isActive =
        (toggles.foldl ColorexApp.toggleColorPicker (ColorexApp.new.init os).2).m_isActive ∧
      (((toggles.foldl ColorexApp.toggleColorPicker (ColorexApp.new.init os).2).toggleColorPicker
          t1).toggleColorPicker t2).m_picker.isRunning =
        (toggles.foldl ColorexApp.toggleColorPicker
          (ColorexApp.new.init os).2).m_picker.isRunning) ∧
    (∀ (p : ColorPicker) (created : Option Nat), p.isRunning = true → p.start created = p) ∧
    (∀ p : ColorPicker, p.isRunning = false → p.stop = p) := by
  obtain ⟨reg, win, thread⟩ := os
  have hreg : reg = true := by
    cases reg
    · simp [ColorexApp.init] at hinit
    · rfl
  have hwin : win = true := by
    cases win
    · simp [ColorexApp.init, hreg] at hinit
    · rfl
  subst hreg hwin
  have h0 : (ColorexApp.new.init ⟨true, true, thread⟩).2.m_picker.isRunning =
      (ColorexApp.new.init ⟨true, true, thread⟩).2.m_isActive := rfl
  have hinv := toggleColorPicker_foldl toggles _ h0
  refine ⟨rfl, rfl, hinv, ?_, ?_, ?_⟩
  · intro t1 t2
    generalize toggles.foldl ColorexApp.toggleColorPicker
      (ColorexApp.new.init ⟨true, true, thread⟩).2 = a at hinv
    rw [(toggleColorPicker_flags _ t2).1, (toggleColorPicker_flags _ t2).2,
      (toggleColorPicker_flags a t1).1, hinv, Bool.not_not]
    exact ⟨rfl, rfl⟩
  · intro p created hp
    simp only [ColorPicker.isRunning] at hp
    simp [ColorPicker.start, hp]
  · intro p hp
    simp only [ColorPicker.isRunning] at hp
    simp [ColorPicker.stop, hp]

/-- C10 after a successful start-up and three toggles. -/
theorem toggleColorPicker_agrees_witness :
    (ColorexApp.new.init ⟨true, true, some 1⟩).1 = true ∧
    ([some 2, none, some 3].foldl ColorexApp.toggleColorPicker
        (ColorexApp.new.init ⟨true, true, some 1⟩).2).m_picker.isRunning =
      ([some 2, none, some 3].foldl ColorexApp.toggleColorPicker
        (ColorexApp.new.init ⟨true, true, some 1⟩).2).m_isActive :=
  ⟨rfl, (toggleColorPicker_agrees ⟨true, true, some 1⟩ [some 2, none, some 3] rfl).2.2.1⟩

/-! ### Accuracy of binary32 rounding -/

/-- Rounding to the nearest integer moves a value by at most one half. -/
theorem roundHalfEven_near (x : ℚ) : |(roundHalfEven x : ℚ) - x| ≤ 1 / 2 := by
  unfold roundHalfEven
  have h1 := Int.floor_le x
  have h2 := Int.lt_floor_add_one x
  simp only
  split_ifs with ha hb hc
  · rw [abs_le]; constructor <;> linarith
  · rw [abs_le]; push_cast; constructor <;> linarith
  · rw [abs_le]; constructor <;> linarith
  · rw [abs_le]; push_cast; constructor <;> linarith

theorem f32_zero : f32 0 = 0 := by
  simp [f32, roundHalfEven]

/-- Binary32 rounding moves a value of magnitude at most `2 ^ n` by at most half a unit in
the last place of that binade, `2 ^ (n - 24)`. -/
theorem f32_near (q : ℚ) (n : ℤ) (hn : -126 ≤ n) (hq : |q| ≤ 2 ^ n) :
    |f32 q - q| ≤ 2 ^ (n - 24) := by
  by_cases h0 : q = 0
  · rw [h0, f32_zero, sub_zero, abs_zero]
    positivity
  have hpos : 0 < |q| := abs_pos.mpr h0
  have he : max (Int.log 2 |q|) (-126) ≤ n := by
    apply max_le _ hn
    have h1 := Int.log_mono_right (b := 2) hpos (by exact_mod_cast hq : |q| ≤ ((2 : ℕ) : ℚ) ^ n)
    rwa [Int.log_zpow (by norm_num)] at h1
  unfold f32
  simp only
  generalize max (Int.log 2 |q|) (-126) = e at he
  have hu : (0 : ℚ) < 2 ^ (e - 23) := by positivity
  have hr := roundHalfEven_near (q / 2 ^ (e - 23))
  have e1 : (roundHalfEven (q / 2 ^ (e - 23)) : ℚ) * 2 ^ (e - 23) - q =
      ((roundHalfEven (q / 2 ^ (e - 23)) : ℚ) - q / 2 ^ (e - 23)) * 2 ^ (e - 23) := by
    field_simp
  rw [e1, abs_mul, abs_of_pos hu]
  have e2 : (2 : ℚ) ^ (n - 24) = 1 / 2 * 2 ^ (n - 23) := by
    rw [show n - 24 = (n - 23) - 1 by ring, zpow_sub_one₀ (by norm_num)]
    ring
  rw [e2]
  have hmono : (2 : ℚ) ^ (e - 23) ≤ 2 ^ (n - 23) :=
    zpow_le_zpow_right₀ (by norm_num) (by omega)
  calc |(roundHalfEven (q / 2 ^ (e - 23)) : ℚ) - q / 2 ^ (e - 23)| * 2 ^ (e - 23)
      ≤ 1 / 2 * 2 ^ (e - 23) := by
        apply mul_le_mul_of_nonneg_right hr hu.le
    _ ≤ 1 / 2 * 2 ^ (n - 23) := by
        apply mul_le_mul_of_nonneg_left hmono (by norm_num)

theorem f32_near_two (q : ℚ) (h : |q| ≤ 2) : |f32 q - q| ≤ 1 / 8000000 := by
  have := f32_near q 1 (by norm_num) (by simpa using h)
  have e : (2 : ℚ) ^ ((1 : ℤ) - 24) ≤ 1 / 8000000 := by
    rw [show (1 : ℤ) - 24 = -23 by norm_num, zpow_neg]
    norm_num
  exact le_trans this e

theorem f32_near_512 (q : ℚ) (h : |q| ≤ 512) : |f32 q - q| ≤ 1 / 32000 := by
  have := f32_near q 9 (by norm_num) (by norm_num; exact h)
  have e : (2 : ℚ) ^ ((9 : ℤ) - 24) ≤ 1 / 32000 := by
    rw [show (9 : ℤ) - 24 = -15 by norm_num, zpow_neg]
    norm_num
  exact le_trans this e

/-- Binary32 rounding is accurate in the sense of `Accurate`. -/
theorem f32_accurate : Accurate f32 :=
  ⟨f32_zero, f32_near_two, f32_near_512⟩

/-- Exact arithmetic, the rounding that changes nothing, is accurate as well. -/
theorem id_accurate : Accurate id := by
  refine ⟨rfl, ?_, ?_⟩ <;> intro q _ <;> simp

/-- One rounded operation on a value of magnitude at most 2. -/
theorem Accurate.step2 {fl : ℚ → ℚ} (h : Accurate fl) {x X e : ℚ} (hx : |x - X| ≤ e)
    (hb : |x| ≤ 2) : |fl x - X| ≤ e + 1 / 8000000 := by
  have h1 := h.2.1 x hb
  rw [abs_le] at h1 hx ⊢
  constructor <;> linarith

/-- One rounded operation on a value of magnitude at most 512. -/
theorem Accurate.step512 {fl : ℚ → ℚ} (h : Accurate fl) {x X e : ℚ} (hx : |x - X| ≤ e)
    (hb : |x| ≤ 512) : |fl x - X| ≤ e + 1 / 32000 := by
  have h1 := h.2.2 x hb
  rw [abs_le] at h1 hx ⊢
  constructor <;> linarith

/-- A quotient of two approximated values, the exact quotient being at most 1 in magnitude
and the exact divisor at least `1/255`. -/
theorem ratio_near {n d N D e : ℚ} (hn : |n - N| ≤ e) (hd : |d - D| ≤ e) (hN : |N| ≤ D)
    (hD : 1 / 255 ≤ D) (he : e ≤ 1 / 100000) : |n / d - N / D| ≤ 512 * e := by
  have he0 : 0 ≤ e := le_trans (abs_nonneg _) hn
  have hD0 : 0 < D := by linarith
  rw [abs_le] at hn hd hN
  have hd0 : 1 / 256 ≤ d := by
    have : (1 : ℚ) / 255 - 1 / 100000 ≥ 1 / 256 := by norm_num
    linarith
  have hdpos : 0 < d := by linarith
  have hρ1 : -1 ≤ N / D := by
    rw [le_div_iff₀ hD0]; linarith
  have hρ2 : N / D ≤ 1 := by
    rw [div_le_iff₀ hD0]; linarith
  have hND : N = N / D * D := by field_simp
  have key : n / d - N / D = ((n - N) - N / D * (d - D)) / d := by
    field_simp
    ring
  have hnum1 : (n - N) - N / D * (d - D) ≤ 2 * e := by
    nlinarith [mul_nonneg (by linarith : 0 ≤ 1 - N / D) (by linarith : 0 ≤ e - (d - D)),
      mul_nonneg (by linarith : 0 ≤ 1 + N / D) (by linarith : 0 ≤ e + (d - D))]
  have hnum2 : -(2 * e) ≤ (n - N) - N / D * (d - D) := by
    nlinarith [mul_nonneg (by linarith : 0 ≤ 1 - N / D) (by linarith : 0 ≤ e + (d - D)),
      mul_nonneg (by linarith : 0 ≤ 1 + N / D) (by linarith : 0 ≤ e - (d - D))]
  rw [key, abs_le]
  constructor
  · rw [le_div_iff₀ hdpos]
    nlinarith
  · rw [div_le_iff₀ hdpos]
    nlinarith

/-! ### Rounding to the printed integer -/

theorem roundHalfAway_of_nonneg {q : ℚ} (h : 0 ≤ q) : roundHalfAway q = ⌊q + 1 / 2⌋ := by
  unfold roundHalfAway
  rw [if_pos h]

/-- The printed integer is within one half of the rounded value. -/
theorem roundHalfAway_near (q : ℚ) : |(roundHalfAway q : ℚ) - q| ≤ 1 / 2 := by
  unfold roundHalfAway
  split_ifs with h
  · have h1 := Int.floor_le (q + 1 / 2)
    have h2 := Int.lt_floor_add_one (q + 1 / 2)
    rw [abs_le]
    constructor <;> linarith
  · have h1 := Int.le_ceil (q - 1 / 2)
    have h2 := Int.ceil_lt_add_one (q - 1 / 2)
    rw [abs_le]
    constructor <;> linarith

theorem roundHalfAway_within_one (q : ℚ) : |(roundHalfAway q : ℚ) - q| ≤ 1 :=
  le_trans (roundHalfAway_near q) (by norm_num)

/-- The printed integer of a value within `1/20` of a reference is within 1 of the
reference. -/
theorem roundHalfAway_tolerance {x X : ℚ} (h : |x - X| ≤ 1 / 20) :
    |(roundHalfAway x : ℚ) - X| ≤ 1 := by
  have h1 := abs_le.mp (roundHalfAway_near x)
  have h2 := abs_le.mp h
  rw [abs_le]
  constructor <;> linarith

/-- Rounding a value to a given integer. -/
theorem roundHalfAway_eq {q : ℚ} {n : ℤ} (h1 : (n : ℚ) - 1 / 2 < q)
    (h2 : q < n + 1 / 2) : roundHalfAway q = n := by
  unfold roundHalfAway
  split_ifs with h
  · rw [Int.floor_eq_iff]
    constructor <;> linarith
  · rw [Int.ceil_eq_iff]
    constructor <;> linarith

/-- Rounding keeps a value that is near an interval with natural end points inside it. -/
theorem roundHalfAway_mem {q : ℚ} {n : ℕ} (h0 : -(1 / 2) < q) (h1 : q < n + 1 / 2) :
    0 ≤ roundHalfAway q ∧ roundHalfAway q ≤ n := by
  unfold roundHalfAway
  split_ifs with h
  · constructor
    · apply Int.floor_nonneg.mpr
      linarith
    · have h2 : ⌊q + 1 / 2⌋ < (n : ℤ) + 1 := by
        rw [Int.floor_lt]
        push_cast
        linarith
      omega
  · have hc : ⌈q - 1 / 2⌉ = 0 := by
      rw [Int.ceil_eq_iff]
      push_cast
      constructor <;> linarith
    rw [hc]
    exact ⟨le_refl _, Int.natCast_nonneg n⟩

/-! ### Format strings -/

theorem fmtHSL_eq (h s l : Int) :
    fmtHSL h s l = "hsl(" ++ toString h ++ ", " ++ toString s ++ "%, " ++ toString l ++ "%)" :=
  rfl

theorem fmtCMYK_eq (c m y k : Int) :
    fmtCMYK c m y k = "cmyk(" ++ toString c ++ "%, " ++ toString m ++ "%, " ++
      toString y ++ "%, " ++ toString k ++ "%)" :=
  rfl

/-! ### Largest and smallest channel -/

theorem maxVal_eq (c : Color) : c.maxVal id = (c.maxChannel : ℚ) / 255 := by
  unfold Color.maxVal Color.maxChannel channelF
  simp only [id]
  rw [max_div_div_right (by norm_num), max_div_div_right (by norm_num)]
  push_cast
  rfl

theorem minVal_eq (c : Color) : c.minVal id = (c.minChannel : ℚ) / 255 := by
  unfold Color.minVal Color.minChannel channelF
  simp only [id]
  rw [min_div_div_right (by norm_num), min_div_div_right (by norm_num)]
  push_cast
  rfl

theorem channel_bounds (c : Color) :
    c.minChannel ≤ c.r ∧ c.minChannel ≤ c.g ∧ c.minChannel ≤ c.b ∧
    c.r ≤ c.maxChannel ∧ c.g ≤ c.maxChannel ∧ c.b ≤ c.maxChannel ∧
    c.minChannel ≤ c.maxChannel := by
  unfold Color.minChannel Color.maxChannel
  omega

theorem maxChannel_pos (c : Color) (h : ¬ (c.r = 0 ∧ c.g = 0 ∧ c.b = 0)) :
    1 ≤ c.maxChannel := by
  unfold Color.maxChannel
  omega

theorem not_black_iff (c : Color) : c ≠ ⟨0, 0, 0⟩ ↔ ¬ (c.r = 0 ∧ c.g = 0 ∧ c.b = 0) := by
  obtain ⟨r, g, b⟩ := c
  simp

theorem grey_iff (c : Color) : (c.r = c.g ∧ c.g = c.b) ↔ c.maxChannel = c.minChannel := by
  unfold Color.minChannel Color.maxChannel
  omega

theorem valid_le (c : Color) (hv : c.valid) :
    c.r ≤ 255 ∧ c.g ≤ 255 ∧ c.b ≤ 255 ∧ c.maxChannel ≤ 255 ∧ c.minChannel ≤ 255 := by
  obtain ⟨h1, h2, h3⟩ := hv
  unfold Color.maxChannel Color.minChannel
  omega

/-! ### Channels under an accurate rounding -/

theorem channelF_near {fl : ℚ → ℚ} (h : Accurate fl) {n : ℕ} (hn : n ≤ 255) :
    |channelF fl n - (n : ℚ) / 255| ≤ 1 / 8000000 := by
  unfold channelF
  apply h.2.1
  have h1 : (n : ℚ) ≤ 255 := by exact_mod_cast hn
  have h0 : (0 : ℚ) ≤ n := Nat.cast_nonneg _
  rw [abs_le]
  constructor
  · have : (0 : ℚ) ≤ (n : ℚ) / 255 := by positivity
    linarith
  · rw [div_le_iff₀ (by norm_num)]
    linarith

theorem channelF_lt {fl : ℚ → ℚ} (h : Accurate fl) {x y : ℕ} (hxy : x < y) (hy : y ≤ 255) :
    channelF fl x < channelF fl y := by
  have hx := channelF_near h (le_trans hxy.le hy)
  have hy' := channelF_near h hy
  rw [abs_le] at hx hy'
  have h1 : (x : ℚ) + 1 ≤ y := by exact_mod_cast hxy
  have h2 : (x : ℚ) / 255 + 1 / 255 ≤ (y : ℚ) / 255 := by
    rw [← add_div]
    exact div_le_div_of_nonneg_right h1 (by norm_num)
  linarith

theorem channelF_le {fl : ℚ → ℚ} (h : Accurate fl) {x y : ℕ} (hxy : x ≤ y) (hy : y ≤ 255) :
    channelF fl x ≤ channelF fl y := by
  rcases Nat.eq_or_lt_of_le hxy with rfl | hlt
  · exact le_refl _
  · exact (channelF_lt h hlt hy).le

theorem channelF_eq_iff {fl : ℚ → ℚ} (h : Accurate fl) {x y : ℕ} (hx : x ≤ 255)
    (hy : y ≤ 255) : channelF fl x = channelF fl y ↔ x = y := by
  constructor
  · intro he
    rcases Nat.lt_trichotomy x y with hlt | heq | hgt
    · exact absurd he (channelF_lt h hlt hy).ne
    · exact heq
    · exact absurd he.symm (channelF_lt h hgt hx).ne
  · intro he
    rw [he]

theorem channelF_lt_iff {fl : ℚ → ℚ} (h : Accurate fl) {x y : ℕ} (hx : x ≤ 255)
    (hy : y ≤ 255) : channelF fl x < channelF fl y ↔ x < y := by
  constructor
  · intro hlt
    by_contra hn
    exact absurd hlt (not_lt.mpr (channelF_le h (not_lt.mp hn) hx))
  · intro hlt
    exact channelF_lt h hlt hy

theorem maxVal_fl {fl : ℚ → ℚ} (h : Accurate fl) (c : Color) (hv : c.valid) :
    c.maxVal fl = channelF fl c.maxChannel := by
  obtain ⟨hr, hg, hb, hM, -⟩ := valid_le c hv
  have hbd := channel_bounds c
  unfold Color.maxVal
  apply le_antisymm
  · exact max_le (channelF_le h hbd.2.2.2.1 hM)
      (max_le (channelF_le h hbd.2.2.2.2.1 hM) (channelF_le h hbd.2.2.2.2.2.1 hM))
  · have hcase : c.maxChannel = c.r ∨ c.maxChannel = c.g ∨ c.maxChannel = c.b := by
      unfold Color.maxChannel
      omega
    rcases hcase with e | e | e <;> rw [e]
    · exact le_max_left _ _
    · exact le_trans (le_max_left _ _) (le_max_right _ _)
    · exact le_trans (le_max_right _ _) (le_max_right _ _)

theorem minVal_fl {fl : ℚ → ℚ} (h : Accurate fl) (c : Color) (hv : c.valid) :
    c.minVal fl = channelF fl c.minChannel := by
  obtain ⟨hr, hg, hb, -, -⟩ := valid_le c hv
  have hbd := channel_bounds c
  unfold Color.minVal
  apply le_antisymm
  · have hcase : c.minChannel = c.r ∨ c.minChannel = c.g ∨ c.minChannel = c.b := by
      unfold Color.minChannel
      omega
    rcases hcase with e | e | e <;> rw [e]
    · exact min_le_left _ _
    · exact le_trans (min_le_right _ _) (min_le_left _ _)
    · exact le_trans (min_le_right _ _) (min_le_right _ _)
  · exact le_min (channelF_le h hbd.1 hr)
      (le_min (channelF_le h hbd.2.1 hg) (channelF_le h hbd.2.2.1 hb))

/-- The exact values of the channels, as fractions of 255, with their order. -/
theorem exact_bounds (c : Color) (hv : c.valid) :
    0 ≤ (c.minChannel : ℚ) / 255 ∧ (c.minChannel : ℚ) / 255 ≤ (c.maxChannel : ℚ) / 255 ∧
    (c.maxChannel : ℚ) / 255 ≤ 1 := by
  obtain ⟨-, -, -, hM, -⟩ := valid_le c hv
  have hbd := channel_bounds c
  have h1 : (c.minChannel : ℚ) ≤ c.maxChannel := by exact_mod_cast hbd.2.2.2.2.2.2
  have h2 : (c.maxChannel : ℚ) ≤ 255 := by exact_mod_cast hM
  refine ⟨by positivity, div_le_div_of_nonneg_right h1 (by norm_num), ?_⟩
  rw [div_le_one (by norm_num)]
  exact h2

theorem exact_channel (c : Color) (n : ℕ) (h : c.minChannel ≤ n ∧ n ≤ c.maxChannel) :
    (c.minChannel : ℚ) / 255 ≤ (n : ℚ) / 255 ∧ (n : ℚ) / 255 ≤ (c.maxChannel : ℚ) / 255 := by
  have h1 : (c.minChannel : ℚ) ≤ n := by exact_mod_cast h.1
  have h2 : (n : ℚ) ≤ c.maxChannel := by exact_mod_cast h.2
  exact ⟨div_le_div_of_nonneg_right h1 (by norm_num),
    div_le_div_of_nonneg_right h2 (by norm_num)⟩

/-! ### CMYK under an accurate rounding -/

/-- The exact value of the largest channel of a colour other than black. -/
theorem exact_max (c : Color) (hv : c.valid) (hb : ¬ (c.r = 0 ∧ c.g = 0 ∧ c.b = 0)) :
    1 / 255 ≤ (c.maxChannel : ℚ) / 255 ∧ (c.maxChannel : ℚ) / 255 ≤ 1 := by
  have h1 : (1 : ℚ) ≤ c.maxChannel := by exact_mod_cast maxChannel_pos c hb
  exact ⟨div_le_div_of_nonneg_right h1 (by norm_num), (exact_bounds c hv).2.2⟩

theorem threshold_near {fl : ℚ → ℚ} (h : Accurate fl) :
    |fl (1 / 10000) - 1 / 10000| ≤ 1 / 8000000 := by
  apply h.2.1
  rw [abs_of_nonneg (by norm_num)]
  norm_num

theorem cmykKey_near {fl : ℚ → ℚ} (h : Accurate fl) (c : Color) (hv : c.valid) :
    |c.cmykKey fl - (1 - (c.maxChannel : ℚ) / 255)| ≤ 1 / 4000000 := by
  have hM := channelF_near h (valid_le c hv).2.2.2.1
  have hx := exact_bounds c hv
  unfold Color.cmykKey
  rw [maxVal_fl h c hv]
  have hM' := abs_le.mp hM
  have := @Accurate.step2 fl h (1 - channelF fl c.maxChannel) (1 - (c.maxChannel : ℚ) / 255)
    (1 / 8000000) (by rw [abs_le]; constructor <;> linarith)
    (by rw [abs_le]; constructor <;> linarith)
  linarith

theorem cmykGuard_near {fl : ℚ → ℚ} (h : Accurate fl) (c : Color) (hv : c.valid) :
    |fl (c.cmykKey fl - 1) - (-((c.maxChannel : ℚ) / 255))| ≤ 3 / 8000000 := by
  have hk := abs_le.mp (cmykKey_near h c hv)
  have hx := exact_bounds c hv
  have := @Accurate.step2 fl h (c.cmykKey fl - 1) (-((c.maxChannel : ℚ) / 255))
    (1 / 4000000) (by rw [abs_le]; constructor <;> linarith)
    (by rw [abs_le]; constructor <;> linarith)
  linarith

theorem cmykDivisor_near {fl : ℚ → ℚ} (h : Accurate fl) (c : Color) (hv : c.valid) :
    |fl (1 - c.cmykKey fl) - (c.maxChannel : ℚ) / 255| ≤ 3 / 8000000 := by
  have hk := abs_le.mp (cmykKey_near h c hv)
  have hx := exact_bounds c hv
  have := @Accurate.step2 fl h (1 - c.cmykKey fl) ((c.maxChannel : ℚ) / 255)
    (1 / 4000000) (by rw [abs_le]; constructor <;> linarith)
    (by rw [abs_le]; constructor <;> linarith)
  linarith

theorem cmykGuard_false {fl : ℚ → ℚ} (h : Accurate fl) (c : Color) (hv : c.valid)
    (hb : ¬ (c.r = 0 ∧ c.g = 0 ∧ c.b = 0)) :
    ¬ (|fl (c.cmykKey fl - 1)| < fl (1 / 10000)) := by
  have hg := abs_le.mp (cmykGuard_near h c hv)
  have ht := abs_le.mp (threshold_near h)
  have hM := exact_max c hv hb
  rw [not_lt]
  have hneg : fl (c.cmykKey fl - 1) ≤ 0 := by
    have : (1 : ℚ) / 255 > 3 / 8000000 := by norm_num
    linarith
  rw [abs_of_nonpos hneg]
  have : (1 : ℚ) / 255 - 3 / 8000000 ≥ 1 / 10000 + 1 / 8000000 := by norm_num
  linarith

/-- The component computed by `calcComponent` for a channel `n`, against the exact
quotient `(M - n) / M`. -/
theorem calcComponent_near {fl : ℚ → ℚ} (h : Accurate fl) (c : Color) (hv : c.valid)
    (hb : ¬ (c.r = 0 ∧ c.g = 0 ∧ c.b = 0)) (n : ℕ) (hn : n ≤ c.maxChannel) :
    |calcComponent fl (c.cmykKey fl) (channelF fl n) -
      ((c.maxChannel : ℚ) - n) / c.maxChannel| ≤ 1 / 3000 := by
  have hM := exact_max c hv hb
  have hMle := (valid_le c hv).2.2.2.1
  have hk := abs_le.mp (cmykKey_near h c hv)
  have hd := cmykDivisor_near h c hv
  have hv' := abs_le.mp (channelF_near h (le_trans hn hMle))
  have hn0 : (0 : ℚ) ≤ (n : ℚ) / 255 := by positivity
  have hnM : (n : ℚ) / 255 ≤ (c.maxChannel : ℚ) / 255 :=
    div_le_div_of_nonneg_right (by exact_mod_cast hn) (by norm_num)
  unfold calcComponent
  rw [if_neg (cmykGuard_false h c hv hb)]
  have h1 := abs_le.mp (@Accurate.step2 fl h (1 - channelF fl n) (1 - (n : ℚ) / 255)
    (1 / 8000000) (by rw [abs_le]; constructor <;> linarith)
    (by rw [abs_le]; constructor <;> linarith))
  have h2 := @Accurate.step2 fl h (fl (1 - channelF fl n) - c.cmykKey fl)
    ((c.maxChannel : ℚ) / 255 - (n : ℚ) / 255) (4 / 8000000)
    (by rw [abs_le]; constructor <;> linarith)
    (by rw [abs_le]; constructor <;> linarith)
  have h2' : |fl (fl (1 - channelF fl n) - c.cmykKey fl) -
      ((c.maxChannel : ℚ) / 255 - (n : ℚ) / 255)| ≤ 5 / 8000000 := by linarith
  have hd' : |fl (1 - c.cmykKey fl) - (c.maxChannel : ℚ) / 255| ≤ 5 / 8000000 := by linarith
  have hr := ratio_near h2' hd' (by rw [abs_of_nonneg (by linarith)]; linarith) hM.1
    (by norm_num)
  have hMpos : (0 : ℚ) < c.maxChannel := by
    have := hM.1
    rw [le_div_iff₀ (by norm_num)] at this
    linarith
  have hq : ((c.maxChannel : ℚ) / 255 - (n : ℚ) / 255) / ((c.maxChannel : ℚ) / 255) =
      ((c.maxChannel : ℚ) - n) / c.maxChannel := by
    rw [← sub_div, div_div_div_cancel_right₀ (by norm_num)]
  rw [hq] at hr
  have hq0 : 0 ≤ ((c.maxChannel : ℚ) - n) / c.maxChannel := by
    apply div_nonneg _ hMpos.le
    have : (n : ℚ) ≤ c.maxChannel := by exact_mod_cast hn
    linarith
  have hq1 : ((c.maxChannel : ℚ) - n) / c.maxChannel ≤ 1 := by
    rw [div_le_one hMpos]
    have : (0 : ℚ) ≤ n := Nat.cast_nonneg _
    linarith
  have hr' := abs_le.mp hr
  have := @Accurate.step2 fl h
    (fl (fl (1 - channelF fl n) - c.cmykKey fl) / fl (1 - c.cmykKey fl))
    (((c.maxChannel : ℚ) - n) / c.maxChannel) (512 * (5 / 8000000)) hr
    (by rw [abs_le]; constructor <;> linarith)
  have e : (512 : ℚ) * (5 / 8000000) + 1 / 8000000 ≤ 1 / 3000 := by norm_num
  linarith

/-- A percentage computed from a value near an exact fraction in `[0, 1]`. -/
theorem percent_near {fl : ℚ → ℚ} (h : Accurate fl) {x X : ℚ} (hx : |x - X| ≤ 1 / 3000)
    (h0 : 0 ≤ X) (h1 : X ≤ 1) : |fl (x * 100) - 100 * X| ≤ 1 / 20 := by
  have hx' := abs_le.mp hx
  have := @Accurate.step512 fl h (x * 100) (100 * X) (1 / 30)
    (by rw [abs_le]; constructor <;> linarith)
    (by rw [abs_le]; constructor <;> linarith)
  have e : (1 : ℚ) / 30 + 1 / 32000 ≤ 1 / 20 := by norm_num
  linarith

/-! ### CMYK: exact reading, tolerance and division -/

theorem cmykKey_eq (c : Color) : c.cmykKey id = 1 - (c.maxChannel : ℚ) / 255 := by
  unfold Color.cmykKey
  rw [maxVal_eq]
  rfl

theorem cmyk_guard (c : Color) (h : ¬ (c.r = 0 ∧ c.g = 0 ∧ c.b = 0)) :
    ¬ (|id (c.cmykKey id - 1)| < id (1 / 10000)) := by
  have hM : (1 : ℚ) ≤ c.maxChannel := by exact_mod_cast maxChannel_pos c h
  simp only [id]
  rw [cmykKey_eq, not_lt]
  have : (1 : ℚ) - (c.maxChannel : ℚ) / 255 - 1 = -((c.maxChannel : ℚ) / 255) := by ring
  rw [this, abs_neg, abs_of_nonneg (by positivity)]
  rw [le_div_iff₀ (by norm_num)]
  linarith

theorem calcComponent_eq (c : Color) (h : ¬ (c.r = 0 ∧ c.g = 0 ∧ c.b = 0)) (n : ℕ) :
    id (calcComponent id (c.cmykKey id) (channelF id n) * 100) =
      100 * ((c.maxChannel : ℚ) - n) / c.maxChannel := by
  have hM : (1 : ℚ) ≤ c.maxChannel := by exact_mod_cast maxChannel_pos c h
  have hM0 : (c.maxChannel : ℚ) ≠ 0 := by linarith
  unfold calcComponent
  rw [if_neg (cmyk_guard c h), cmykKey_eq]
  simp only [id, channelF]
  field_simp
  ring

theorem cmykKey_pct (c : Color) : id (c.cmykKey id * 100) = refKey c := by
  rw [cmykKey_eq]
  unfold refKey
  simp only [id]
  field_simp
  ring

theorem toCMYK_exact (c : Color) (hb : ¬ (c.r = 0 ∧ c.g = 0 ∧ c.b = 0)) :
    c.toCMYKWith id = "cmyk(" ++ toString (roundHalfAway (refCyan c)) ++ "%, " ++
      toString (roundHalfAway (refMagenta c)) ++ "%, " ++
      toString (roundHalfAway (refYellow c)) ++ "%, " ++
      toString (roundHalfAway (refKey c)) ++ "%)" := by
  unfold Color.toCMYKWith
  rw [if_neg hb]
  simp only [Color.cmykInts, Color.cmykScaled, calcComponent_eq c hb, cmykKey_pct]
  exact fmtCMYK_eq _ _ _ _

/-- The four arguments of `std::round` in `toCMYK` are within `1/20` of the reference
percentages. -/
theorem cmykScaled_near {fl : ℚ → ℚ} (h : Accurate fl) (c : Color) (hv : c.valid)
    (hb : ¬ (c.r = 0 ∧ c.g = 0 ∧ c.b = 0)) :
    |(c.cmykScaled fl).1 - refCyan c| ≤ 1 / 20 ∧
    |(c.cmykScaled fl).2.1 - refMagenta c| ≤ 1 / 20 ∧
    |(c.cmykScaled fl).2.2.1 - refYellow c| ≤ 1 / 20 ∧
    |(c.cmykScaled fl).2.2.2 - refKey c| ≤ 1 / 20 := by
  have hbd := channel_bounds c
  have hM := exact_max c hv hb
  have hMpos : (0 : ℚ) < c.maxChannel := by
    have := hM.1
    rw [le_div_iff₀ (by norm_num)] at this
    linarith
  have comp : ∀ n : ℕ, n ≤ c.maxChannel →
      |fl (calcComponent fl (c.cmykKey fl) (channelF fl n) * 100) -
        100 * ((c.maxChannel : ℚ) - n) / c.maxChannel| ≤ 1 / 20 := by
    intro n hn
    have hq0 : 0 ≤ ((c.maxChannel : ℚ) - n) / c.maxChannel := by
      apply div_nonneg _ hMpos.le
      have : (n : ℚ) ≤ c.maxChannel := by exact_mod_cast hn
      linarith
    have hq1 : ((c.maxChannel : ℚ) - n) / c.maxChannel ≤ 1 := by
      rw [div_le_one hMpos]
      have : (0 : ℚ) ≤ n := Nat.cast_nonneg _
      linarith
    have := percent_near h (calcComponent_near h c hv hb n hn) hq0 hq1
    rwa [← mul_div_assoc] at this
  refine ⟨comp c.r hbd.2.2.2.1, comp c.g hbd.2.2.2.2.1, comp c.b hbd.2.2.2.2.2.1, ?_⟩
  show |fl (c.cmykKey fl * 100) - refKey c| ≤ 1 / 20
  have hk := abs_le.mp (cmykKey_near h c hv)
  have := @Accurate.step512 fl h (c.cmykKey fl * 100) (refKey c) (1 / 100)
    (by
      unfold refKey
      rw [abs_le]
      constructor
      · have : 100 * (255 - (c.maxChannel : ℚ)) / 255 = 100 * (1 - (c.maxChannel : ℚ) / 255) := by
          field_simp
        rw [this]; linarith
      · have : 100 * (255 - (c.maxChannel : ℚ)) / 255 = 100 * (1 - (c.maxChannel : ℚ) / 255) := by
          field_simp
        rw [this]; linarith)
    (by rw [abs_le]; constructor <;> linarith)
  have e : (1 : ℚ) / 100 + 1 / 32000 ≤ 1 / 20 := by norm_num
  linarith

/-- C3. For every colour other than black, `toCMYK` prints four integers in the format
`cmyk(C%, M%, Y%, K%)`.  Read in exact arithmetic they are the reference values
`100*(M-r)/M`, `100*(M-g)/M`, `100*(M-b)/M`, `100*(255-M)/255` (with `M` the largest
channel) rounded to the nearest integer, hence within 1 of them; computed in binary32 each
printed integer is within 1 of the unrounded reference value as well. -/
theorem toCMYK_reference (c : Color) (hv : c.valid) (h : c ≠ ⟨0, 0, 0⟩) :
    c.toCMYKWith id = "cmyk(" ++ toString (roundHalfAway (refCyan c)) ++ "%, " ++
      toString (roundHalfAway (refMagenta c)) ++ "%, " ++
      toString (roundHalfAway (refYellow c)) ++ "%, " ++
      toString (roundHalfAway (refKey c)) ++ "%)" ∧
    c.toCMYK = "cmyk(" ++ toString (c.cmykInts f32).1 ++ "%, " ++
      toString (c.cmykInts f32).2.1 ++ "%, " ++
      toString (c.cmykInts f32).2.2.1 ++ "%, " ++
      toString (c.cmykInts f32).2.2.2 ++ "%)" ∧
    (|(roundHalfAway (refCyan c) : ℚ) - refCyan c| ≤ 1 ∧
      |(roundHalfAway (refMagenta c) : ℚ) - refMagenta c| ≤ 1 ∧
      |(roundHalfAway (refYellow c) : ℚ) - refYellow c| ≤ 1 ∧
      |(roundHalfAway (refKey c) : ℚ) - refKey c| ≤ 1) ∧
    (|((c.cmykInts f32).1 : ℚ) - refCyan c| ≤ 1 ∧
      |((c.cmykInts f32).2.1 : ℚ) - refMagenta c| ≤ 1 ∧
      |((c.cmykInts f32).2.2.1 : ℚ) - refYellow c| ≤ 1 ∧
      |((c.cmykInts f32).2.2.2 : ℚ) - refKey c| ≤ 1) := by
  have hb := (not_black_iff c).mp h
  have hn := cmykScaled_near f32_accurate c hv hb
  refine ⟨toCMYK_exact c hb, ?_,
    ⟨roundHalfAway_within_one _, roundHalfAway_within_one _, roundHalfAway_within_one _,
      roundHalfAway_within_one _⟩,
    ⟨roundHalfAway_tolerance hn.1, roundHalfAway_tolerance hn.2.1,
      roundHalfAway_tolerance hn.2.2.1, roundHalfAway_tolerance hn.2.2.2⟩⟩
  unfold Color.toCMYK Color.toCMYKWith
  rw [if_neg hb]
  exact fmtCMYK_eq _ _ _ _

/-- C3 at the colour `(255, 0, 0)`: the reference values are 0, 100, 100 and 0, so each
printed integer is within 1 of them. -/
theorem toCMYK_reference_witness :
    (Color.mk 255 0 0).valid ∧ (Color.mk 255 0 0) ≠ ⟨0, 0, 0⟩ ∧
    |(((Color.mk 255 0 0).cmykInts f32).1 : ℚ) - 0| ≤ 1 ∧
    |(((Color.mk 255 0 0).cmykInts f32).2.1 : ℚ) - 100| ≤ 1 := by
  have h := toCMYK_reference (Color.mk 255 0 0) (by decide) (by decide)
  have hM : (Color.mk 255 0 0).maxChannel = 255 := by decide
  have e1 : refCyan (Color.mk 255 0 0) = 0 := by
    unfold refCyan; rw [hM]; norm_num
  have e2 : refMagenta (Color.mk 255 0 0) = 100 := by
    unfold refMagenta; rw [hM]; norm_num
  refine ⟨by decide, by decide, ?_, ?_⟩
  · rw [← e1]; exact h.2.2.2.1
  · rw [← e2]; exact h.2.2.2.2.1

theorem toCMYKChecked_eq {fl : ℚ → ℚ} (h : Accurate fl) (c : Color) (hv : c.valid) :
    c.toCMYKChecked fl = some (c.toCMYKWith fl) := by
  unfold Color.toCMYKChecked Color.toCMYKWith
  split_ifs with hb
  · rfl
  · have hg := cmykGuard_false h c hv hb
    have hd := abs_le.mp (cmykDivisor_near h c hv)
    have hM := exact_max c hv hb
    have hne : fl (1 - c.cmykKey fl) ≠ 0 := by
      intro h0
      rw [h0] at hd
      have : (1 : ℚ) / 255 > 3 / 8000000 := by norm_num
      linarith
    have hcomp : ∀ value : ℚ, calcComponentChecked fl (c.cmykKey fl) value =
        some (calcComponent fl (c.cmykKey fl) value) := by
      intro value
      unfold calcComponentChecked calcComponent
      rw [if_neg hg, if_neg hg, if_neg hne]
    simp only [hcomp]
    rfl

/-- C7. `toCMYK` never divides by zero: with the division of `calcComponent` checked it
still returns its result, in binary32 and in exact arithmetic.  For a colour other than
black the divisor `1 - k` is `max(r, g, b) / 255` in exact arithmetic, at least `1/255`
and not zero; in binary32 it is within `3/8000000` of that value and not zero; in both
the guard `|k - 1| < 0.0001` is false, so `calcComponent` takes its division branch.  For
black the function returns its literal at the first test. -/
theorem toCMYK_no_division_by_zero (c : Color) (hv : c.valid) :
    c.toCMYKChecked f32 = some c.toCMYK ∧
    c.toCMYKChecked id = some (c.toCMYKWith id) ∧
    (c ≠ ⟨0, 0, 0⟩ →
      (1 - c.cmykKey id = (c.maxChannel : ℚ) / 255 ∧
        (1 : ℚ) / 255 ≤ 1 - c.cmykKey id ∧
        1 - c.cmykKey id ≠ 0 ∧
        ¬ (|c.cmykKey id - 1| < 1 / 10000) ∧
        ∀ value : ℚ, calcComponent id (c.cmykKey id) value =
          (1 - value - c.cmykKey id) / (1 - c.cmykKey id)) ∧
      (|f32 (1 - c.cmykKey f32) - (c.maxChannel : ℚ) / 255| ≤ 3 / 8000000 ∧
        f32 (1 - c.cmykKey f32) ≠ 0 ∧
        ¬ (|f32 (c.cmykKey f32 - 1)| < f32 (1 / 10000)) ∧
        ∀ value : ℚ, calcComponent f32 (c.cmykKey f32) value =
          f32 (f32 (f32 (1 - value) - c.cmykKey f32) / f32 (1 - c.cmykKey f32)))) ∧
    (c = ⟨0, 0, 0⟩ → c.toCMYKChecked f32 = some "cmyk(0%, 0%, 0%, 100%)") := by
  refine ⟨toCMYKChecked_eq f32_accurate c hv, toCMYKChecked_eq id_accurate c hv, ?_, ?_⟩
  · intro h
    have hb := (not_black_iff c).mp h
    have hM := exact_max c hv hb
    have hk : 1 - c.cmykKey id = (c.maxChannel : ℚ) / 255 := by
      rw [cmykKey_eq]; ring
    have hge : (1 : ℚ) / 255 ≤ 1 - c.cmykKey id := by
      rw [hk]; exact hM.1
    have hgd : ¬ (|c.cmykKey id - 1| < 1 / 10000) := cmyk_guard c hb
    have hd := cmykDivisor_near f32_accurate c hv
    have hgf := cmykGuard_false f32_accurate c hv hb
    refine ⟨⟨hk, hge, ?_, hgd, ?_⟩, ⟨hd, ?_, hgf, ?_⟩⟩
    · intro h0
      rw [h0] at hge
      norm_num at hge
    · intro value
      unfold calcComponent
      rw [if_neg (cmyk_guard c hb)]
      rfl
    · intro h0
      rw [h0] at hd
      have hd' := abs_le.mp hd
      have : (1 : ℚ) / 255 > 3 / 8000000 := by norm_num
      linarith [hM.1]
    · intro value
      unfold calcComponent
      rw [if_neg hgf]
  · intro h
    rw [h]
    rfl

/-- C7 at the colour `(0, 0, 1)`, whose exact divisor is `1/255`. -/
theorem toCMYK_no_division_by_zero_witness :
    (Color.mk 0 0 1).valid ∧ (Color.mk 0 0 1) ≠ ⟨0, 0, 0⟩ ∧
    1 - (Color.mk 0 0 1).cmykKey id = ((Color.mk 0 0 1).maxChannel : ℚ) / 255 ∧
    f32 (1 - (Color.mk 0 0 1).cmykKey f32) ≠ 0 ∧
    ¬ (|f32 ((Color.mk 0 0 1).cmykKey f32 - 1)| < f32 (1 / 10000)) :=
  have h := (toCMYK_no_division_by_zero (Color.mk 0 0 1) (by decide)).2.2.1 (by decide)
  ⟨by decide, by decide, h.1.1, h.2.2.1, h.2.2.2.1⟩

/-! ### HSL: the reference formulas -/

theorem mod6_of_nonneg {x : ℚ} (h0 : 0 ≤ x) (h1 : x < 6) : mod6 x = x := by
  unfold mod6
  have : ⌊x / 6⌋ = 0 := by
    rw [Int.floor_eq_iff]
    constructor
    · simp only [Int.cast_zero]; positivity
    · simp only [Int.cast_zero, zero_add]
      rw [div_lt_iff₀ (by norm_num)]
      linarith
  rw [this]
  simp

theorem mod6_of_neg {x : ℚ} (h0 : -6 ≤ x) (h1 : x < 0) : mod6 x = x + 6 := by
  unfold mod6
  have : ⌊x / 6⌋ = -1 := by
    rw [Int.floor_eq_iff]
    constructor
    · simp only [Int.cast_neg, Int.cast_one]
      rw [le_div_iff₀ (by norm_num)]
      linarith
    · simp only [Int.cast_neg, Int.cast_one, neg_add_cancel]
      rw [div_lt_iff₀ (by norm_num)]
      linarith
  rw [this]
  push_cast
  ring

theorem mod6_range (x : ℚ) : 0 ≤ mod6 x ∧ mod6 x < 6 := by
  unfold mod6
  have h1 := Int.floor_le (x / 6)
  have h2 := Int.lt_floor_add_one (x / 6)
  rw [le_div_iff₀ (by norm_num)] at h1
  rw [div_lt_iff₀ (by norm_num)] at h2
  constructor <;> linarith

/-- The quotient of two channel differences by `delta`, without the common factor. -/
theorem ratio_eq (x y M m : ℚ) :
    (x / 255 - y / 255) / (M / 255 - m / 255) = (x - y) / (M - m) := by
  rw [← sub_div, ← sub_div, div_div_div_cancel_right₀ (by norm_num)]

theorem ratio_bounds (c : Color) (hne : c.minChannel < c.maxChannel) (x y : ℕ)
    (hx : c.minChannel ≤ x ∧ x ≤ c.maxChannel) (hy : c.minChannel ≤ y ∧ y ≤ c.maxChannel) :
    -1 ≤ ((x : ℚ) / 255 - (y : ℚ) / 255) /
        ((c.maxChannel : ℚ) / 255 - (c.minChannel : ℚ) / 255) ∧
      ((x : ℚ) / 255 - (y : ℚ) / 255) /
        ((c.maxChannel : ℚ) / 255 - (c.minChannel : ℚ) / 255) ≤ 1 := by
  have h1 : (c.minChannel : ℚ) < c.maxChannel := by exact_mod_cast hne
  have h2 : (c.minChannel : ℚ) ≤ x := by exact_mod_cast hx.1
  have h3 : (x : ℚ) ≤ c.maxChannel := by exact_mod_cast hx.2
  have h4 : (c.minChannel : ℚ) ≤ y := by exact_mod_cast hy.1
  have h5 : (y : ℚ) ≤ c.maxChannel := by exact_mod_cast hy.2
  have hd : (0 : ℚ) < c.maxChannel - c.minChannel := by linarith
  rw [ratio_eq, le_div_iff₀ hd, div_le_iff₀ hd]
  constructor <;> linarith

/-- For a colour that is not grey the exact `delta` is at least `1/255`. -/
theorem exact_delta (c : Color) (h : ¬ (c.r = c.g ∧ c.g = c.b)) :
    c.minChannel < c.maxChannel ∧
    1 / 255 ≤ (c.maxChannel : ℚ) / 255 - (c.minChannel : ℚ) / 255 := by
  have hlt : c.minChannel < c.maxChannel := by
    have := channel_bounds c
    have := grey_iff c
    omega
  refine ⟨hlt, ?_⟩
  have h1 : (c.minChannel : ℚ) + 1 ≤ c.maxChannel := by exact_mod_cast hlt
  rw [← sub_div]
  apply div_le_div_of_nonneg_right _ (by norm_num)
  linarith

/-- The reference hue of a colour that is not grey, as 60 degrees times a sextant
coordinate: the quotient of the branch plus 0 or 6 (red), 2 (green), 4 (blue). -/
theorem refHue_sextant (c : Color) (hg : ¬ (c.r = c.g ∧ c.g = c.b)) :
    refHue c =
      if c.r = c.maxChannel then
        60 * (((c.g : ℚ) / 255 - (c.b : ℚ) / 255) /
          ((c.maxChannel : ℚ) / 255 - (c.minChannel : ℚ) / 255) + (if c.g < c.b then 6 else 0))
      else if c.g = c.maxChannel then
        60 * (((c.b : ℚ) / 255 - (c.r : ℚ) / 255) /
          ((c.maxChannel : ℚ) / 255 - (c.minChannel : ℚ) / 255) + 2)
      else
        60 * (((c.r : ℚ) / 255 - (c.g : ℚ) / 255) /
          ((c.maxChannel : ℚ) / 255 - (c.minChannel : ℚ) / 255) + 4) := by
  unfold refHue
  rw [if_neg hg]
  have hd := exact_delta c hg
  have hb := channel_bounds c
  by_cases hr : c.r = c.maxChannel
  · rw [if_pos hr, if_pos hr]
    unfold refHueRed
    have hx := ratio_bounds c hd.1 c.g c.b ⟨hb.2.1, hb.2.2.2.2.1⟩ ⟨hb.2.2.1, hb.2.2.2.2.2.1⟩
    have hdpos : (0 : ℚ) < (c.maxChannel : ℚ) / 255 - (c.minChannel : ℚ) / 255 := by
      linarith [hd.2]
    by_cases hlt : c.g < c.b
    · rw [if_pos hlt]
      have hlt' : (c.g : ℚ) / 255 < (c.b : ℚ) / 255 :=
        div_lt_div_of_pos_right (by exact_mod_cast hlt) (by norm_num)
      have hneg : ((c.g : ℚ) / 255 - (c.b : ℚ) / 255) /
          ((c.maxChannel : ℚ) / 255 - (c.minChannel : ℚ) / 255) < 0 :=
        div_neg_of_neg_of_pos (by linarith) hdpos
      rw [mod6_of_neg (by linarith [hx.1]) hneg]
    · rw [if_neg hlt]
      have hge : (c.b : ℚ) / 255 ≤ (c.g : ℚ) / 255 :=
        div_le_div_of_nonneg_right (by exact_mod_cast not_lt.mp hlt) (by norm_num)
      have hpos : 0 ≤ ((c.g : ℚ) / 255 - (c.b : ℚ) / 255) /
          ((c.maxChannel : ℚ) / 255 - (c.minChannel : ℚ) / 255) :=
        div_nonneg (by linarith) hdpos.le
      rw [mod6_of_nonneg hpos (by linarith [hx.2]), add_zero]
  · rw [if_neg hr, if_neg hr]
    by_cases hgm : c.g = c.maxChannel
    · rw [if_pos hgm, if_pos hgm]
      rfl
    · rw [if_neg hgm, if_neg hgm]
      rfl

/-- The reference saturation of a colour that is not grey, by the side of one half the
lightness is on; at lightness one half the two quotients are equal. -/
theorem refSaturation_cases (c : Color) (hg : ¬ (c.r = c.g ∧ c.g = c.b)) :
    (255 ≤ c.maxChannel + c.minChannel → refSaturation c =
      ((c.maxChannel : ℚ) / 255 - (c.minChannel : ℚ) / 255) /
        (2 - (c.maxChannel : ℚ) / 255 - (c.minChannel : ℚ) / 255)) ∧
    (c.maxChannel + c.minChannel ≤ 255 → refSaturation c =
      ((c.maxChannel : ℚ) / 255 - (c.minChannel : ℚ) / 255) /
        ((c.maxChannel : ℚ) / 255 + (c.minChannel : ℚ) / 255)) := by
  have hL : 2 * refLightness c - 1 =
      (c.maxChannel : ℚ) / 255 + (c.minChannel : ℚ) / 255 - 1 := by
    unfold refLightness; ring
  unfold refSaturation
  rw [if_neg hg]
  constructor
  · intro h
    have h' : (255 : ℚ) ≤ (c.maxChannel : ℚ) + c.minChannel := by exact_mod_cast h
    have : 0 ≤ 2 * refLightness c - 1 := by
      rw [hL, ← add_div, le_sub_iff_add_le, zero_add, le_div_iff₀ (by norm_num)]
      linarith
    rw [abs_of_nonneg this, hL]
    congr 1
    ring
  · intro h
    have h' : (c.maxChannel : ℚ) + c.minChannel ≤ 255 := by exact_mod_cast h
    have : 2 * refLightness c - 1 ≤ 0 := by
      rw [hL, ← add_div, sub_nonpos, div_le_one (by norm_num)]
      exact h'
    rw [abs_of_nonpos this, hL]
    congr 1
    ring

theorem refHue_range (c : Color) : 0 ≤ refHue c ∧ refHue c < 360 := by
  by_cases hg : c.r = c.g ∧ c.g = c.b
  · unfold refHue
    rw [if_pos hg]
    norm_num
  · have hlt := (exact_delta c hg).1
    have hb := channel_bounds c
    unfold refHue
    rw [if_neg hg]
    split_ifs with hr hgm
    · unfold refHueRed
      have := mod6_range (((c.g : ℚ) / 255 - (c.b : ℚ) / 255) /
        ((c.maxChannel : ℚ) / 255 - (c.minChannel : ℚ) / 255))
      constructor <;> linarith
    · unfold refHueGreen
      have := ratio_bounds c hlt c.b c.r ⟨hb.2.2.1, hb.2.2.2.2.2.1⟩ ⟨hb.1, hb.2.2.2.1⟩
      constructor <;> linarith
    · unfold refHueBlue
      have := ratio_bounds c hlt c.r c.g ⟨hb.1, hb.2.2.2.1⟩ ⟨hb.2.1, hb.2.2.2.2.1⟩
      constructor <;> linarith

theorem refLightness_range (c : Color) (hv : c.valid) :
    0 ≤ refLightness c ∧ refLightness c ≤ 1 := by
  have hx := exact_bounds c hv
  unfold refLightness
  constructor
  · linarith
  · linarith

theorem refSaturation_range (c : Color) (hv : c.valid) :
    0 ≤ refSaturation c ∧ refSaturation c ≤ 1 := by
  by_cases hg : c.r = c.g ∧ c.g = c.b
  · unfold refSaturation
    rw [if_pos hg]
    norm_num
  · have hx := exact_bounds c hv
    have hd := exact_delta c hg
    have hcases := refSaturation_cases c hg
    have hm254 : (c.minChannel : ℚ) / 255 ≤ 254 / 255 := by
      apply div_le_div_of_nonneg_right _ (by norm_num)
      have h1 := (valid_le c hv).2.2.2.1
      have h2 : c.minChannel ≤ 254 := by omega
      exact_mod_cast h2
    rcases Nat.le_total 255 (c.maxChannel + c.minChannel) with h | h
    · rw [hcases.1 h]
      have hden : (0 : ℚ) < 2 - (c.maxChannel : ℚ) / 255 - (c.minChannel : ℚ) / 255 := by
        linarith
      constructor
      · exact div_nonneg (by linarith) hden.le
      · rw [div_le_one hden]
        linarith
    · rw [hcases.2 h]
      have hden : (0 : ℚ) < (c.maxChannel : ℚ) / 255 + (c.minChannel : ℚ) / 255 := by
        linarith
      constructor
      · exact div_nonneg (by linarith) hden.le
      · rw [div_le_one hden]
        linarith

/-! ### HSL under an accurate rounding -/

/-- A rounded quotient of two approximated values, the exact quotient being at most 1 in
magnitude and the exact divisor at least `1/255`. -/
theorem quotient_near {fl : ℚ → ℚ} (h : Accurate fl) {n d N D : ℚ}
    (hn : |n - N| ≤ 5 / 8000000) (hd : |d - D| ≤ 5 / 8000000) (hN : |N| ≤ D)
    (hD : 1 / 255 ≤ D) : |fl (n / d) - N / D| ≤ 1 / 3000 := by
  have hr := ratio_near hn hd hN hD (by norm_num)
  have hD0 : 0 < D := by linarith
  have hN' := abs_le.mp hN
  have hq0 : -1 ≤ N / D := by
    rw [le_div_iff₀ hD0]; linarith
  have hq1 : N / D ≤ 1 := by
    rw [div_le_iff₀ hD0]; linarith
  have hr' := abs_le.mp hr
  have := @Accurate.step2 fl h (n / d) (N / D) (512 * (5 / 8000000)) hr
    (by rw [abs_le]; constructor <;> linarith)
  have e : (512 : ℚ) * (5 / 8000000) + 1 / 8000000 ≤ 1 / 3000 := by norm_num
  linarith

theorem maxVal_near {fl : ℚ → ℚ} (h : Accurate fl) (c : Color) (hv : c.valid) :
    |c.maxVal fl - (c.maxChannel : ℚ) / 255| ≤ 1 / 8000000 := by
  rw [maxVal_fl h c hv]
  exact channelF_near h (valid_le c hv).2.2.2.1

theorem minVal_near {fl : ℚ → ℚ} (h : Accurate fl) (c : Color) (hv : c.valid) :
    |c.minVal fl - (c.minChannel : ℚ) / 255| ≤ 1 / 8000000 := by
  rw [minVal_fl h c hv]
  exact channelF_near h (valid_le c hv).2.2.2.2

theorem hslDelta_near {fl : ℚ → ℚ} (h : Accurate fl) (c : Color) (hv : c.valid) :
    |c.hslDelta fl - ((c.maxChannel : ℚ) / 255 - (c.minChannel : ℚ) / 255)| ≤ 3 / 8000000 := by
  have hM := abs_le.mp (maxVal_near h c hv)
  have hm := abs_le.mp (minVal_near h c hv)
  have hx := exact_bounds c hv
  unfold Color.hslDelta
  have := @Accurate.step2 fl h (c.maxVal fl - c.minVal fl)
    ((c.maxChannel : ℚ) / 255 - (c.minChannel : ℚ) / 255) (2 / 8000000)
    (by rw [abs_le]; constructor <;> linarith)
    (by rw [abs_le]; constructor <;> linarith)
  linarith

/-- The test `delta > 0.0001f` of `toHSL` holds exactly for the colours that are not
grey. -/
theorem hslDelta_test {fl : ℚ → ℚ} (h : Accurate fl) (c : Color) (hv : c.valid) :
    c.hslDelta fl > fl (1 / 10000) ↔ ¬ (c.r = c.g ∧ c.g = c.b) := by
  have ht := abs_le.mp (threshold_near h)
  constructor
  · intro hgt hg
    have he : c.hslDelta fl = 0 := by
      unfold Color.hslDelta
      rw [maxVal_fl h c hv, minVal_fl h c hv, (grey_iff c).mp hg, sub_self, h.1]
    rw [he] at hgt
    have : (1 : ℚ) / 10000 > 1 / 8000000 := by norm_num
    linarith
  · intro hg
    have hd := abs_le.mp (hslDelta_near h c hv)
    have hx := (exact_delta c hg).2
    have : (1 : ℚ) / 255 - 3 / 8000000 > 1 / 10000 + 1 / 8000000 := by norm_num
    linarith

theorem hslLightness_near {fl : ℚ → ℚ} (h : Accurate fl) (c : Color) (hv : c.valid) :
    |c.hslLightness fl - refLightness c| ≤ 1 / 50000 := by
  have hM := abs_le.mp (maxVal_near h c hv)
  have hm := abs_le.mp (minVal_near h c hv)
  have hx := exact_bounds c hv
  unfold Color.hslLightness refLightness
  have h1 := abs_le.mp (@Accurate.step512 fl h (c.maxVal fl + c.minVal fl)
    ((c.maxChannel : ℚ) / 255 + (c.minChannel : ℚ) / 255) (2 / 8000000)
    (by rw [abs_le]; constructor <;> linarith)
    (by rw [abs_le]; constructor <;> linarith))
  have := @Accurate.step2 fl h (fl (c.maxVal fl + c.minVal fl) / 2)
    (((c.maxChannel : ℚ) / 255 + (c.minChannel : ℚ) / 255) / 2)
    ((2 / 8000000 + 1 / 32000) / 2)
    (by rw [abs_le]; constructor <;> linarith)
    (by rw [abs_le]; constructor <;> linarith)
  have e : ((2 : ℚ) / 8000000 + 1 / 32000) / 2 + 1 / 8000000 ≤ 1 / 50000 := by norm_num
  linarith

theorem hslSaturation_near {fl : ℚ → ℚ} (h : Accurate fl) (c : Color) (hv : c.valid) :
    |c.hslSaturation fl - refSaturation c| ≤ 1 / 3000 := by
  by_cases hg : c.r = c.g ∧ c.g = c.b
  · have ht : ¬ (c.hslDelta fl > fl (1 / 10000)) := fun hc => (hslDelta_test h c hv).mp hc hg
    unfold Color.hslSaturation refSaturation
    simp only
    rw [if_neg ht, if_pos hg, sub_self, abs_zero]
    norm_num
  · have ht : c.hslDelta fl > fl (1 / 10000) := (hslDelta_test h c hv).mpr hg
    have hM := abs_le.mp (maxVal_near h c hv)
    have hm := abs_le.mp (minVal_near h c hv)
    have hx := exact_bounds c hv
    have hd := exact_delta c hg
    have hdn := hslDelta_near h c hv
    have hL := abs_le.mp (hslLightness_near h c hv)
    have hcases := refSaturation_cases c hg
    have hMle := (valid_le c hv).2.2.2.1
    have hsum : refLightness c =
        ((c.maxChannel : ℚ) + c.minChannel) / 510 := by
      unfold refLightness; ring
    unfold Color.hslSaturation
    simp only
    rw [if_pos ht]
    split_ifs with hl
    · have hge : 255 ≤ c.maxChannel + c.minChannel := by
        by_contra hc
        have h254 : c.maxChannel + c.minChannel ≤ 254 := by omega
        have h254' : ((c.maxChannel : ℚ) + c.minChannel) ≤ 254 := by exact_mod_cast h254
        have : refLightness c ≤ 254 / 510 := by
          rw [hsum]
          exact div_le_div_of_nonneg_right h254' (by norm_num)
        have e : (254 : ℚ) / 510 + 1 / 50000 < 1 / 2 := by norm_num
        linarith
      rw [hcases.1 hge]
      have hm254 : (c.minChannel : ℚ) / 255 ≤ 254 / 255 := by
        apply div_le_div_of_nonneg_right _ (by norm_num)
        have h2 : c.minChannel ≤ 254 := by omega
        exact_mod_cast h2
      have h1 := abs_le.mp (@Accurate.step2 fl h (2 - c.maxVal fl)
        (2 - (c.maxChannel : ℚ) / 255) (1 / 8000000)
        (by rw [abs_le]; constructor <;> linarith)
        (by rw [abs_le]; constructor <;> linarith))
      have h2 := @Accurate.step2 fl h (fl (2 - c.maxVal fl) - c.minVal fl)
        (2 - (c.maxChannel : ℚ) / 255 - (c.minChannel : ℚ) / 255) (3 / 8000000)
        (by rw [abs_le]; constructor <;> linarith)
        (by rw [abs_le]; constructor <;> linarith)
      apply quotient_near h (le_trans hdn (by norm_num)) (le_trans h2 (by norm_num))
      · rw [abs_of_nonneg (by linarith)]
        linarith
      · linarith
    · have hle : c.maxChannel + c.minChannel ≤ 255 := by
        by_contra hc
        have h256 : 256 ≤ c.maxChannel + c.minChannel := by omega
        have h256' : (256 : ℚ) ≤ (c.maxChannel : ℚ) + c.minChannel := by exact_mod_cast h256
        have : (256 : ℚ) / 510 ≤ refLightness c := by
          rw [hsum]
          exact div_le_div_of_nonneg_right h256' (by norm_num)
        have e : (256 : ℚ) / 510 - 1 / 50000 > 1 / 2 := by norm_num
        apply hl
        linarith
      rw [hcases.2 hle]
      have hsum1 : (c.maxChannel : ℚ) / 255 + (c.minChannel : ℚ) / 255 ≤ 1 := by
        rw [← add_div, div_le_one (by norm_num)]
        exact_mod_cast hle
      have h2 := @Accurate.step2 fl h (c.maxVal fl + c.minVal fl)
        ((c.maxChannel : ℚ) / 255 + (c.minChannel : ℚ) / 255) (2 / 8000000)
        (by rw [abs_le]; constructor <;> linarith)
        (by rw [abs_le]; constructor <;> linarith)
      apply quotient_near h (le_trans hdn (by norm_num)) (le_trans h2 (by norm_num))
      · rw [abs_of_nonneg (by linarith)]
        linarith
      · linarith

/-- The quotient of a channel difference by `delta` in `toHSL`. -/
theorem hueRatio_near {fl : ℚ → ℚ} (h : Accurate fl) (c : Color) (hv : c.valid)
    (hg : ¬ (c.r = c.g ∧ c.g = c.b)) (x y : ℕ)
    (hx : c.minChannel ≤ x ∧ x ≤ c.maxChannel) (hy : c.minChannel ≤ y ∧ y ≤ c.maxChannel) :
    |fl (fl (channelF fl x - channelF fl y) / c.hslDelta fl) -
      ((x : ℚ) / 255 - (y : ℚ) / 255) /
        ((c.maxChannel : ℚ) / 255 - (c.minChannel : ℚ) / 255)| ≤ 1 / 3000 := by
  have hMle := (valid_le c hv).2.2.2.1
  have hcx := abs_le.mp (channelF_near h (le_trans hx.2 hMle))
  have hcy := abs_le.mp (channelF_near h (le_trans hy.2 hMle))
  have hex := exact_channel c x hx
  have hey := exact_channel c y hy
  have hb := exact_bounds c hv
  have hd := exact_delta c hg
  have hdn := hslDelta_near h c hv
  have h1 := @Accurate.step2 fl h (channelF fl x - channelF fl y)
    ((x : ℚ) / 255 - (y : ℚ) / 255) (2 / 8000000)
    (by rw [abs_le]; constructor <;> linarith)
    (by rw [abs_le]; constructor <;> linarith)
  apply quotient_near h (le_trans h1 (by norm_num)) (le_trans hdn (by norm_num))
  · rw [abs_le]
    constructor <;> linarith
  · exact hd.2

/-- The last three operations on the hue: adding the sextant offset, dividing by 6 and
multiplying by 360. -/
theorem hueScaled_near {fl : ℚ → ℚ} (h : Accurate fl) {q ρ s : ℚ} (hq : |q - ρ| ≤ 1 / 3000)
    (hρ : -1 ≤ ρ ∧ ρ ≤ 1) (hs : 0 ≤ s ∧ s ≤ 6) :
    |fl (fl (fl (q + s) / 6) * 360) - 60 * (ρ + s)| ≤ 1 / 20 := by
  have hq' := abs_le.mp hq
  have h1 := abs_le.mp (@Accurate.step512 fl h (q + s) (ρ + s) (1 / 3000)
    (by rw [abs_le]; constructor <;> linarith)
    (by rw [abs_le]; constructor <;> linarith))
  have h2 := abs_le.mp (@Accurate.step2 fl h (fl (q + s) / 6) ((ρ + s) / 6)
    ((1 / 3000 + 1 / 32000) / 6)
    (by rw [abs_le]; constructor <;> linarith)
    (by rw [abs_le]; constructor <;> linarith))
  have h3 := @Accurate.step512 fl h (fl (fl (q + s) / 6) * 360) (60 * (ρ + s))
    (360 * ((1 / 3000 + 1 / 32000) / 6 + 1 / 8000000))
    (by rw [abs_le]; constructor <;> linarith)
    (by rw [abs_le]; constructor <;> linarith)
  have e : (360 : ℚ) * ((1 / 3000 + 1 / 32000) / 6 + 1 / 8000000) + 1 / 32000 ≤ 1 / 20 := by
    norm_num
  linarith

/-- The tests that choose the hue branch of `toHSL` decide on the channel values. -/
theorem hue_tests {fl : ℚ → ℚ} (h : Accurate fl) (c : Color) (hv : c.valid) :
    (c.maxVal fl = channelF fl c.r ↔ c.r = c.maxChannel) ∧
    (c.maxVal fl = channelF fl c.g ↔ c.g = c.maxChannel) ∧
    (channelF fl c.g < channelF fl c.b ↔ c.g < c.b) := by
  obtain ⟨hr, hg, hb, hM, -⟩ := valid_le c hv
  rw [maxVal_fl h c hv]
  refine ⟨?_, ?_, channelF_lt_iff h hg hb⟩
  · rw [channelF_eq_iff h hM hr]
    exact eq_comm
  · rw [channelF_eq_iff h hM hg]
    exact eq_comm

theorem hslHue_near {fl : ℚ → ℚ} (h : Accurate fl) (c : Color) (hv : c.valid) :
    |fl (c.hslHue fl * 360) - refHue c| ≤ 1 / 20 := by
  by_cases hg : c.r = c.g ∧ c.g = c.b
  · have ht : ¬ (c.hslDelta fl > fl (1 / 10000)) := fun hc => (hslDelta_test h c hv).mp hc hg
    unfold Color.hslHue refHue
    simp only
    rw [if_neg ht, if_pos hg, zero_mul, h.1, sub_self, abs_zero]
    norm_num
  · have ht : c.hslDelta fl > fl (1 / 10000) := (hslDelta_test h c hv).mpr hg
    have hb := channel_bounds c
    have hlt := (exact_delta c hg).1
    have htests := hue_tests h c hv
    rw [refHue_sextant c hg]
    unfold Color.hslHue
    simp only
    rw [if_pos ht]
    simp only [htests.1, htests.2.1, htests.2.2]
    by_cases hr : c.r = c.maxChannel
    · rw [if_pos hr, if_pos hr]
      apply hueScaled_near h
        (hueRatio_near h c hv hg c.g c.b ⟨hb.2.1, hb.2.2.2.2.1⟩ ⟨hb.2.2.1, hb.2.2.2.2.2.1⟩)
        (ratio_bounds c hlt c.g c.b ⟨hb.2.1, hb.2.2.2.2.1⟩ ⟨hb.2.2.1, hb.2.2.2.2.2.1⟩)
      split_ifs <;> norm_num
    · rw [if_neg hr, if_neg hr]
      by_cases hgm : c.g = c.maxChannel
      · rw [if_pos hgm, if_pos hgm]
        exact hueScaled_near h
          (hueRatio_near h c hv hg c.b c.r ⟨hb.2.2.1, hb.2.2.2.2.2.1⟩ ⟨hb.1, hb.2.2.2.1⟩)
          (ratio_bounds c hlt c.b c.r ⟨hb.2.2.1, hb.2.2.2.2.2.1⟩ ⟨hb.1, hb.2.2.2.1⟩)
          (by norm_num)
      · rw [if_neg hgm, if_neg hgm]
        exact hueScaled_near h
          (hueRatio_near h c hv hg c.r c.g ⟨hb.1, hb.2.2.2.1⟩ ⟨hb.2.1, hb.2.2.2.2.1⟩)
          (ratio_bounds c hlt c.r c.g ⟨hb.1, hb.2.2.2.1⟩ ⟨hb.2.1, hb.2.2.2.2.1⟩)
          (by norm_num)

/-- The three arguments of `std::round` in `toHSL` are within `1/20` of the reference hue
in degrees and the reference saturation and lightness in percent. -/
theorem hslScaled_near {fl : ℚ → ℚ} (h : Accurate fl) (c : Color) (hv : c.valid) :
    |(c.hslScaled fl).1 - refHue c| ≤ 1 / 20 ∧
    |(c.hslScaled fl).2.1 - 100 * refSaturation c| ≤ 1 / 20 ∧
    |(c.hslScaled fl).2.2 - 100 * refLightness c| ≤ 1 / 20 := by
  have hs := refSaturation_range c hv
  have hl := refLightness_range c hv
  exact ⟨hslHue_near h c hv,
    percent_near h (hslSaturation_near h c hv) hs.1 hs.2,
    percent_near h (le_trans (hslLightness_near h c hv) (by norm_num)) hl.1 hl.2⟩

/-! ### HSL: exact reading, tolerance and ranges -/

theorem hslLightness_eq (c : Color) : c.hslLightness id = refLightness c := by
  unfold Color.hslLightness refLightness
  simp only [id]
  rw [maxVal_eq, minVal_eq]

theorem hslSaturation_eq (c : Color) (hv : c.valid) : c.hslSaturation id = refSaturation c := by
  by_cases hg : c.r = c.g ∧ c.g = c.b
  · have ht : ¬ (c.hslDelta id > id (1 / 10000)) :=
      fun hc => (hslDelta_test id_accurate c hv).mp hc hg
    unfold Color.hslSaturation refSaturation
    simp only
    rw [if_neg ht, if_pos hg]
  · have ht : c.hslDelta id > id (1 / 10000) := (hslDelta_test id_accurate c hv).mpr hg
    have hcases := refSaturation_cases c hg
    have hsum : refLightness c = ((c.maxChannel : ℚ) + c.minChannel) / 510 := by
      unfold refLightness; ring
    unfold Color.hslSaturation
    simp only
    rw [if_pos ht, hslLightness_eq]
    unfold Color.hslDelta
    simp only [id]
    rw [maxVal_eq, minVal_eq]
    split_ifs with hl
    · have hge : 255 ≤ c.maxChannel + c.minChannel := by
        rw [hsum, gt_iff_lt, lt_div_iff₀ (by norm_num)] at hl
        have hl' : (255 : ℚ) < ((c.maxChannel + c.minChannel : ℕ) : ℚ) := by
          push_cast; linarith
        have := Nat.cast_lt.mp (by exact_mod_cast hl' : ((255 : ℕ) : ℚ) < ((c.maxChannel + c.minChannel : ℕ) : ℚ))
        omega
      rw [hcases.1 hge]
    · have hle : c.maxChannel + c.minChannel ≤ 255 := by
        rw [hsum, gt_iff_lt, not_lt, div_le_iff₀ (by norm_num)] at hl
        have hl' : ((c.maxChannel + c.minChannel : ℕ) : ℚ) ≤ ((255 : ℕ) : ℚ) := by
          push_cast; linarith
        exact Nat.cast_le.mp hl'
      rw [hcases.2 hle]

theorem hslHue_eq (c : Color) (hv : c.valid) : id (c.hslHue id * 360) = refHue c := by
  by_cases hg : c.r = c.g ∧ c.g = c.b
  · have ht : ¬ (c.hslDelta id > id (1 / 10000)) :=
      fun hc => (hslDelta_test id_accurate c hv).mp hc hg
    unfold Color.hslHue refHue
    simp only
    rw [if_neg ht, if_pos hg]
    simp
  · have ht : c.hslDelta id > id (1 / 10000) := (hslDelta_test id_accurate c hv).mpr hg
    have htests := hue_tests id_accurate c hv
    rw [refHue_sextant c hg]
    unfold Color.hslHue
    simp only
    rw [if_pos ht]
    simp only [htests.1, htests.2.1, htests.2.2]
    unfold Color.hslDelta
    rw [maxVal_eq, minVal_eq]
    simp only [id, channelF]
    split_ifs <;> ring

theorem toHSL_exact (c : Color) (hv : c.valid) :
    c.toHSLWith id = "hsl(" ++ toString (roundHalfAway (refHue c)) ++ ", " ++
      toString (roundHalfAway (100 * refSaturation c)) ++ "%, " ++
      toString (roundHalfAway (100 * refLightness c)) ++ "%)" := by
  have e1 : (c.hslScaled id).1 = refHue c := hslHue_eq c hv
  have e2 : (c.hslScaled id).2.1 = 100 * refSaturation c := by
    show id (c.hslSaturation id * 100) = 100 * refSaturation c
    rw [hslSaturation_eq c hv]
    simp only [id]
    ring
  have e3 : (c.hslScaled id).2.2 = 100 * refLightness c := by
    show id (c.hslLightness id * 100) = 100 * refLightness c
    rw [hslLightness_eq c]
    simp only [id]
    ring
  unfold Color.toHSLWith Color.hslInts
  rw [e1, e2, e3]
  exact fmtHSL_eq _ _ _

theorem refHue_green (c : Color) (hg : ¬ (c.r = c.g ∧ c.g = c.b)) (hgm : c.g = c.maxChannel) :
    refHue c = refHueGreen c := by
  unfold refHue
  rw [if_neg hg]
  by_cases hr : c.r = c.maxChannel
  · rw [if_pos hr]
    have hlt := (exact_delta c hg).1
    have hbm : c.b = c.minChannel := by
      have h1 : c.minChannel = min c.r (min c.g c.b) := rfl
      omega
    have hd : (c.maxChannel : ℚ) - c.minChannel ≠ 0 := by
      have : (c.minChannel : ℚ) < c.maxChannel := by exact_mod_cast hlt
      linarith
    unfold refHueRed refHueGreen
    rw [ratio_eq, ratio_eq, hgm, hbm, hr, div_self hd, mod6_of_nonneg (by norm_num) (by norm_num),
      ← neg_sub (c.maxChannel : ℚ), neg_div, div_self hd]
    norm_num
  · rw [if_neg hr, if_pos hgm]

theorem refHue_blue (c : Color) (hg : ¬ (c.r = c.g ∧ c.g = c.b)) (hbm : c.b = c.maxChannel) :
    refHue c = refHueBlue c := by
  unfold refHue
  rw [if_neg hg]
  have hlt := (exact_delta c hg).1
  have hd : (c.maxChannel : ℚ) - c.minChannel ≠ 0 := by
    have : (c.minChannel : ℚ) < c.maxChannel := by exact_mod_cast hlt
    linarith
  have hmin : c.minChannel = min c.r (min c.g c.b) := rfl
  by_cases hr : c.r = c.maxChannel
  · rw [if_pos hr]
    have hgn : c.g = c.minChannel := by omega
    unfold refHueRed refHueBlue
    rw [ratio_eq, ratio_eq, hgn, hbm, hr, div_self hd,
      ← neg_sub (c.maxChannel : ℚ), neg_div, div_self hd,
      mod6_of_neg (by norm_num) (by norm_num)]
    norm_num
  · rw [if_neg hr]
    by_cases hgm : c.g = c.maxChannel
    · rw [if_pos hgm]
      have hrn : c.r = c.minChannel := by
        have := channel_bounds c
        omega
      unfold refHueGreen refHueBlue
      rw [ratio_eq, ratio_eq, hrn, hbm, hgm, div_self hd,
        ← neg_sub (c.maxChannel : ℚ), neg_div, div_self hd]
      norm_num
    · rw [if_neg hgm]

/-- C4. `toHSL` prints three integers in the format `hsl(H, S%, L%)`.  Read in exact
arithmetic they are the reference hue in degrees and the reference saturation and
lightness in percent, rounded to the nearest integer, hence within 1 of them; computed in
binary32 each printed integer is within 1 of the unrounded reference value as well.  The
reference has
`L = (max + min) / 2`; hue and saturation `0` when `r = g = b`; otherwise saturation
`delta / (1 - |2L - 1|)` and the hue `60 * ((g - b) / delta mod 6)` when red is the
largest channel, `60 * ((b - r) / delta + 2)` when green is, `60 * ((r - g) / delta + 4)`
when blue is. -/
theorem toHSL_reference (c : Color) (hv : c.valid) :
    c.toHSLWith id = "hsl(" ++ toString (roundHalfAway (refHue c)) ++ ", " ++
      toString (roundHalfAway (100 * refSaturation c)) ++ "%, " ++
      toString (roundHalfAway (100 * refLightness c)) ++ "%)" ∧
    c.toHSL = "hsl(" ++ toString (c.hslInts f32).1 ++ ", " ++
      toString (c.hslInts f32).2.1 ++ "%, " ++ toString (c.hslInts f32).2.2 ++ "%)" ∧
    (|(roundHalfAway (refHue c) : ℚ) - refHue c| ≤ 1 ∧
      |(roundHalfAway (100 * refSaturation c) : ℚ) - 100 * refSaturation c| ≤ 1 ∧
      |(roundHalfAway (100 * refLightness c) : ℚ) - 100 * refLightness c| ≤ 1) ∧
    (|((c.hslInts f32).1 : ℚ) - refHue c| ≤ 1 ∧
      |((c.hslInts f32).2.1 : ℚ) - 100 * refSaturation c| ≤ 1 ∧
      |((c.hslInts f32).2.2 : ℚ) - 100 * refLightness c| ≤ 1) ∧
    refLightness c = ((c.maxChannel : ℚ) / 255 + (c.minChannel : ℚ) / 255) / 2 ∧
    (c.r = c.g ∧ c.g = c.b → refHue c = 0 ∧ refSaturation c = 0) ∧
    (¬ (c.r = c.g ∧ c.g = c.b) →
      refSaturation c = ((c.maxChannel : ℚ) / 255 - (c.minChannel : ℚ) / 255) /
        (1 - |2 * refLightness c - 1|) ∧
      (c.r = c.maxChannel → refHue c = 60 * mod6 (((c.g : ℚ) / 255 - (c.b : ℚ) / 255) /
        ((c.maxChannel : ℚ) / 255 - (c.minChannel : ℚ) / 255))) ∧
      (c.g = c.maxChannel → refHue c = 60 * (((c.b : ℚ) / 255 - (c.r : ℚ) / 255) /
        ((c.maxChannel : ℚ) / 255 - (c.minChannel : ℚ) / 255) + 2)) ∧
      (c.b = c.maxChannel → refHue c = 60 * (((c.r : ℚ) / 255 - (c.g : ℚ) / 255) /
        ((c.maxChannel : ℚ) / 255 - (c.minChannel : ℚ) / 255) + 4))) := by
  have hn := hslScaled_near f32_accurate c hv
  have hfmt : c.toHSL = "hsl(" ++ toString (c.hslInts f32).1 ++ ", " ++
      toString (c.hslInts f32).2.1 ++ "%, " ++ toString (c.hslInts f32).2.2 ++ "%)" := by
    unfold Color.toHSL Color.toHSLWith
    exact fmtHSL_eq _ _ _
  refine ⟨toHSL_exact c hv, hfmt,
    ⟨roundHalfAway_within_one _, roundHalfAway_within_one _, roundHalfAway_within_one _⟩,
    ⟨roundHalfAway_tolerance hn.1, roundHalfAway_tolerance hn.2.1,
      roundHalfAway_tolerance hn.2.2⟩, rfl, ?_, ?_⟩
  · intro hg
    unfold refHue refSaturation
    rw [if_pos hg, if_pos hg]
    exact ⟨rfl, rfl⟩
  · intro hg
    refine ⟨?_, ?_, refHue_green c hg, refHue_blue c hg⟩
    · unfold refSaturation
      rw [if_neg hg]
    · intro hr
      unfold refHue
      rw [if_neg hg, if_pos hr]
      rfl

/-- C4 at the colour `(18, 52, 86)`, whose largest channel is blue: the reference hue is
210 degrees and the printed hue is within 1 of it. -/
theorem toHSL_reference_witness :
    (Color.mk 18 52 86).valid ∧
    ¬ ((Color.mk 18 52 86).r = (Color.mk 18 52 86).g ∧
      (Color.mk 18 52 86).g = (Color.mk 18 52 86).b) ∧
    (Color.mk 18 52 86).b = (Color.mk 18 52 86).maxChannel ∧
    refHue (Color.mk 18 52 86) = 210 ∧
    |(((Color.mk 18 52 86).hslInts f32).1 : ℚ) - 210| ≤ 1 := by
  have h := toHSL_reference (Color.mk 18 52 86) (by decide)
  have hmax : (Color.mk 18 52 86).maxChannel = 86 := by decide
  have hmin : (Color.mk 18 52 86).minChannel = 18 := by decide
  have hg : ¬ ((Color.mk 18 52 86).r = (Color.mk 18 52 86).g ∧
      (Color.mk 18 52 86).g = (Color.mk 18 52 86).b) := by decide
  have hhue : refHue (Color.mk 18 52 86) = 210 := by
    rw [(h.2.2.2.2.2.2 hg).2.2.2 (by decide), hmax, hmin]
    norm_num
  refine ⟨by decide, hg, by decide, hhue, ?_⟩
  rw [← hhue]
  exact h.2.2.2.1.1

/-- The integer printed for a value within `1/20` of a reference that is itself within
`2/5` of an integer. -/
theorem roundHalfAway_of_near {x X : ℚ} {n : ℤ} (h : |x - X| ≤ 1 / 20)
    (h1 : (n : ℚ) - 2 / 5 ≤ X) (h2 : X ≤ n + 2 / 5) : roundHalfAway x = n := by
  have h' := abs_le.mp h
  apply roundHalfAway_eq <;> linarith

/-- The integers printed for `(255, 0, 1)`. -/
theorem hslInts_255_0_1 {fl : ℚ → ℚ} (h : Accurate fl) :
    (Color.mk 255 0 1).hslInts fl = (360, 100, 50) := by
  have hv : (Color.mk 255 0 1).valid := by decide
  have hn := hslScaled_near h (Color.mk 255 0 1) hv
  have hmax : (Color.mk 255 0 1).maxChannel = 255 := by decide
  have hmin : (Color.mk 255 0 1).minChannel = 0 := by decide
  have hg : ¬ ((Color.mk 255 0 1).r = (Color.mk 255 0 1).g ∧
      (Color.mk 255 0 1).g = (Color.mk 255 0 1).b) := by decide
  have hhue : refHue (Color.mk 255 0 1) = 60 * (6 - 1 / 255) := by
    rw [refHue_sextant _ hg, if_pos (by decide), if_pos (by decide), hmax, hmin]
    norm_num
  have hsat : refSaturation (Color.mk 255 0 1) = 1 := by
    rw [(refSaturation_cases _ hg).2 (by decide), hmax, hmin]
    norm_num
  have hl : refLightness (Color.mk 255 0 1) = 1 / 2 := by
    unfold refLightness
    rw [hmax, hmin]
    norm_num
  rw [hhue] at hn
  rw [hsat, hl] at hn
  have e1 : roundHalfAway ((Color.mk 255 0 1).hslScaled fl).1 = 360 :=
    roundHalfAway_of_near hn.1 (by norm_num) (by norm_num)
  have e2 : roundHalfAway ((Color.mk 255 0 1).hslScaled fl).2.1 = 100 :=
    roundHalfAway_of_near hn.2.1 (by norm_num) (by norm_num)
  have e3 : roundHalfAway ((Color.mk 255 0 1).hslScaled fl).2.2 = 50 :=
    roundHalfAway_of_near hn.2.2 (by norm_num) (by norm_num)
  unfold Color.hslInts
  rw [e1, e2, e3]

theorem hslInts_range {fl : ℚ → ℚ} (h : Accurate fl) (c : Color) (hv : c.valid) :
    (0 ≤ (c.hslInts fl).1 ∧ (c.hslInts fl).1 ≤ 360) ∧
    (0 ≤ (c.hslInts fl).2.1 ∧ (c.hslInts fl).2.1 ≤ 100) ∧
    (0 ≤ (c.hslInts fl).2.2 ∧ (c.hslInts fl).2.2 ≤ 100) := by
  have hn := hslScaled_near h c hv
  have hh := refHue_range c
  have hs := refSaturation_range c hv
  have hl := refLightness_range c hv
  have h1 := abs_le.mp hn.1
  have h2 := abs_le.mp hn.2.1
  have h3 := abs_le.mp hn.2.2
  have e360 : ((360 : ℕ) : ℚ) = 360 := by norm_num
  have e100 : ((100 : ℕ) : ℚ) = 100 := by norm_num
  refine ⟨?_, ?_, ?_⟩
  · exact @roundHalfAway_mem (c.hslScaled fl).1 360 (by linarith) (by rw [e360]; linarith)
  · exact @roundHalfAway_mem (c.hslScaled fl).2.1 100 (by linarith) (by rw [e100]; linarith)
  · exact @roundHalfAway_mem (c.hslScaled fl).2.2 100 (by linarith) (by rw [e100]; linarith)

/-- C9. For every colour with channels in `0..255` the integers printed by `toHSL`,
computed in binary32, are in range: hue in `0..360`, saturation and lightness in
`0..100`; the same holds for the reading in exact arithmetic.  The hue bound 360 is
reached: `(255, 0, 1)` prints `hsl(360, 100%, 50%)`. -/
theorem toHSL_ranges (c : Color) (hv : c.valid) :
    c.toHSL = "hsl(" ++ toString (c.hslInts f32).1 ++ ", " ++
      toString (c.hslInts f32).2.1 ++ "%, " ++ toString (c.hslInts f32).2.2 ++ "%)" ∧
    ((0 ≤ (c.hslInts f32).1 ∧ (c.hslInts f32).1 ≤ 360) ∧
      (0 ≤ (c.hslInts f32).2.1 ∧ (c.hslInts f32).2.1 ≤ 100) ∧
      (0 ≤ (c.hslInts f32).2.2 ∧ (c.hslInts f32).2.2 ≤ 100)) ∧
    ((0 ≤ (c.hslInts id).1 ∧ (c.hslInts id).1 ≤ 360) ∧
      (0 ≤ (c.hslInts id).2.1 ∧ (c.hslInts id).2.1 ≤ 100) ∧
      (0 ≤ (c.hslInts id).2.2 ∧ (c.hslInts id).2.2 ≤ 100)) ∧
    (Color.mk 255 0 1).valid ∧
    ((Color.mk 255 0 1).hslInts f32).1 = 360 ∧
    (Color.mk 255 0 1).toHSL = "hsl(360, 100%, 50%)" ∧
    (Color.mk 255 0 1).toHSLWith id = "hsl(360, 100%, 50%)" := by
  have hfmt : c.toHSL = "hsl(" ++ toString (c.hslInts f32).1 ++ ", " ++
      toString (c.hslInts f32).2.1 ++ "%, " ++ toString (c.hslInts f32).2.2 ++ "%)" := by
    unfold Color.toHSL Color.toHSLWith
    exact fmtHSL_eq _ _ _
  have hstr : fmtHSL 360 100 50 = "hsl(360, 100%, 50%)" := by decide
  refine ⟨hfmt, hslInts_range f32_accurate c hv, hslInts_range id_accurate c hv, by decide,
    ?_, ?_, ?_⟩
  · rw [hslInts_255_0_1 f32_accurate]
  · unfold Color.toHSL Color.toHSLWith
    rw [hslInts_255_0_1 f32_accurate]
    exact hstr
  · unfold Color.toHSLWith
    rw [hslInts_255_0_1 id_accurate]
    exact hstr

/-- C9 at the colour `(255, 0, 1)`, the one with the hue at its upper bound. -/
theorem toHSL_ranges_witness :
    (Color.mk 255 0 1).valid ∧
    (0 ≤ ((Color.mk 255 0 1).hslInts f32).1 ∧ ((Color.mk 255 0 1).hslInts f32).1 ≤ 360) ∧
    (0 ≤ ((Color.mk 255 0 1).hslInts f32).2.1 ∧ ((Color.mk 255 0 1).hslInts f32).2.1 ≤ 100) ∧
    (0 ≤ ((Color.mk 255 0 1).hslInts f32).2.2 ∧ ((Color.mk 255 0 1).hslInts f32).2.2 ≤ 100) :=
  have h := toHSL_ranges (Color.mk 255 0 1) (by decide)
  ⟨by decide, h.2.1.1, h.2.1.2.1, h.2.1.2.2⟩

end Colorex
